import Mathlib

/-!
Shallow embedding of the play-by-play statistical derivation engine of
`scripts/fetch_games.py`: the plus/minus calculator (`calculate_plus_minus`),
the second-chance-points calculator (`calculate_second_chance_pts`), and the
lead/tie summarizer and lead-series densifier inside `generate_game_page`.

Python dictionaries with `.get` defaulting are modelled by structures with
`Option` fields plus explicit `getD`; Python sets of player ids are modelled
as duplicate-free lists; Python dicts keyed by strings are modelled as
association lists with upsert semantics.  All definitions are executable.
-/

/-! ## String utilities

Python's `in` (substring test), `str.lower`, `str.split(":")` and `int(...)`
are modelled character-wise so that everything reduces in the kernel.
`Char.toLower` only lowers ASCII letters, which covers the vocabulary the
script matches against.
-/

/-- `charsStart needle hay` is true iff `needle` is an initial segment of `hay`. -/
def charsStart : List Char → List Char → Bool
  | [], _ => true
  | _ :: _, [] => false
  | a :: as, b :: bs => a = b && charsStart as bs

/-- `charsContain needle hay` is true iff `needle` occurs contiguously in `hay`. -/
def charsContain (needle : List Char) : List Char → Bool
  | [] => charsStart needle []
  | b :: bs => charsStart needle (b :: bs) || charsContain needle bs

/-- Python's `needle in haystack` substring test. -/
def strContains (haystack needle : String) : Bool :=
  charsContain needle.toList haystack.toList

/-- Python's `str.lower()` (ASCII letters, which is all the script matches on). -/
def strToLower (s : String) : String :=
  String.mk (s.toList.map Char.toLower)

/-- Python's `str.split(sep)` for a single-character separator: no collapsing,
an empty string yields `[[]]`. -/
def splitChars (sep : Char) : List Char → List (List Char)
  | [] => [[]]
  | c :: rest =>
    let r := splitChars sep rest
    if c = sep then [] :: r
    else
      match r with
      | [] => [[c]]
      | g :: gs => (c :: g) :: gs

/-- Value of an ASCII digit character, if it is one. -/
def digitVal (c : Char) : Option Nat :=
  if 48 ≤ c.toNat ∧ c.toNat ≤ 57 then some (c.toNat - 48) else none

/-- Accumulating decimal reading of a digit list; `none` on any non-digit. -/
def digitsAux (acc : Nat) : List Char → Option Nat
  | [] => some acc
  | c :: rest =>
    match digitVal c with
    | some d => digitsAux (acc * 10 + d) rest
    | none => none

/-- Decimal value of a non-empty digit list, else `none`. -/
def digitsVal : List Char → Option Nat
  | [] => none
  | c :: rest => digitsAux 0 (c :: rest)

/-- Python's `int(s)` on a canonical integer string (optional minus sign then
digits); `none` models `int` raising `ValueError`. -/
def parseInt (s : String) : Option Int :=
  match s.toList with
  | [] => none
  | c :: rest =>
    if c = Char.ofNat 45 then (digitsVal rest).map (fun n => -(n : Int))
    else (digitsVal (c :: rest)).map (fun n => (n : Int))

/-! ## Data model

A `Play` carries exactly the fields the three calculators read.  Optional
fields are `Option`s; the `.get(..., default)` defaulting sites in the Python
are reproduced at each use site, not in the structure.
-/

/-- One athlete entry of `boxscore["players"][i]["statistics"][0]["athletes"]`:
`athleteId` is `a["athlete"]["id"]` (absent ⇒ `none`), `starter` is the
truthiness of `a["starter"]`. -/
structure Athlete where
  athleteId : Option String
  starter : Bool
deriving DecidableEq

/-- One team entry of `boxscore["players"]`: the team id (defaulted to `""` in
the source) and the `statistics` list, of which only the head's athlete list
is ever read. -/
structure BoxTeam where
  teamId : String
  statistics : List (List Athlete)
deriving DecidableEq

/-- One play record.  `typeText` is `play["type"]["text"]` (default `""`),
`text` is `play["text"]` (default `""`), `teamId` is `play["team"]["id"]`
(`none` when the team object is absent), `participants` is the list of
`participants[i]["athlete"]["id"]`, `period` is `play["period"]["number"]` and
`clock` is `play["clock"]["displayValue"]`. -/
structure Play where
  typeText : String
  text : String
  teamId : Option String
  scoringPlay : Bool
  scoreValue : Int
  homeScore : Option Int
  awayScore : Option Int
  participants : List (Option String)
  period : Option Int
  clock : Option String
deriving DecidableEq

/-- `play.get("team", {}).get("id", "")`: the play's team id with the empty
string standing for an absent team object. -/
def playTeamId (p : Play) : String :=
  p.teamId.getD ""

/-! ## Association-list and set primitives -/

/-- Upsert into a string-keyed association list (Python `d[k] = v`). -/
def pmSet (k : String) (v : Int) : List (String × Int) → List (String × Int)
  | [] => [(k, v)]
  | kv :: rest => if kv.1 = k then (k, v) :: rest else kv :: pmSet k v rest

/-- Lookup in a string-keyed association list. -/
def pmLookup (k : String) : List (String × Int) → Option Int
  | [] => none
  | kv :: rest => if kv.1 = k then some kv.2 else pmLookup k rest

/-- Python `if k in d: d[k] += delta`: add to the value at `k` when the key is
present, otherwise leave the map unchanged. -/
def pmAdd (k : String) (delta : Int) (m : List (String × Int)) : List (String × Int) :=
  m.map (fun kv => if kv.1 = k then (kv.1, kv.2 + delta) else kv)

/-- Python `set.add`: a duplicate-free list standing for a set of (possibly
absent) athlete ids. -/
def setAdd (x : Option String) (s : List (Option String)) : List (Option String) :=
  if x ∈ s then s else s ++ [x]

/-- Python `set.discard`. -/
def setDiscard (x : Option String) (s : List (Option String)) : List (Option String) :=
  s.filter (fun y => y ≠ x)

/-- Python `set(l)`. -/
def setOfList (l : List (Option String)) : List (Option String) :=
  l.foldl (fun acc x => setAdd x acc) []

/-- Upsert into the team-id-keyed on-court map (Python `on_court[t] = s`). -/
def ocSet (t : String) (s : List (Option String)) :
    List (String × List (Option String)) → List (String × List (Option String))
  | [] => [(t, s)]
  | e :: rest => if e.1 = t then (t, s) :: rest else e :: ocSet t s rest

/-- Lookup in the on-court map; `isSome` is Python's `t in on_court`. -/
def ocLookup (t : String) : List (String × List (Option String)) → Option (List (Option String))
  | [] => none
  | e :: rest => if e.1 = t then some e.2 else ocLookup t rest

/-! ## Plus/minus calculator (`calculate_plus_minus`, lines 158–211) -/

/-- The initialisation state: the plus/minus accumulator and the on-court map. -/
structure PMInit where
  pm : List (String × Int)
  onCourt : List (String × List (Option String))
deriving DecidableEq

/-- Register one athlete in the accumulator: a truthy id gets value `0`. -/
def pmInitPlayer (pm : List (String × Int)) (a : Athlete) : List (String × Int) :=
  match a.athleteId with
  | some id => if id = "" then pm else pmSet id 0 pm
  | none => pm

/-- Per-team initialisation from the box score: starters (by truthy `starter`)
form the on-court set; every athlete with a truthy id gets accumulator `0`. -/
def initTeam (s : PMInit) (tb : BoxTeam) : PMInit :=
  match tb.statistics with
  | [] => s
  | athletes :: _ =>
    let starters := (athletes.filter (fun a => a.starter)).map (fun a => a.athleteId)
    let oc := ocSet tb.teamId (setOfList starters) s.onCourt
    let pm := athletes.foldl pmInitPlayer s.pm
    ⟨pm, oc⟩

/-- The full loop state of `calculate_plus_minus`. -/
structure PMState where
  pm : List (String × Int)
  onCourt : List (String × List (Option String))
  prevHome : Int
  prevAway : Int
deriving DecidableEq

/-- One on-court id's contribution to the scoring accumulation: add
`home_diff - away_diff` for the home team, its negation otherwise, skipping
absent ids (which can never hold an accumulator key). -/
def pmAccumPlayer (homeTeamId : String) (homeDiff awayDiff : Int) (t : String)
    (pm : List (String × Int)) (aid : Option String) : List (String × Int) :=
  match aid with
  | some a =>
    pmAdd a (if t = homeTeamId then homeDiff - awayDiff else awayDiff - homeDiff) pm
  | none => pm

/-- One team's contribution to the scoring accumulation. -/
def pmAccumTeam (homeTeamId : String) (homeDiff awayDiff : Int)
    (pm : List (String × Int)) (e : String × List (Option String)) : List (String × Int) :=
  e.2.foldl (pmAccumPlayer homeTeamId homeDiff awayDiff e.1) pm

/-- The scoring accumulation: for every team and every on-court player with a
key in the accumulator, add `home_diff - away_diff` (home team) or its
negation (other teams). -/
def pmAccum (homeTeamId : String) (homeDiff awayDiff : Int)
    (oc : List (String × List (Option String)))
    (pm : List (String × Int)) : List (String × Int) :=
  oc.foldl (pmAccumTeam homeTeamId homeDiff awayDiff) pm

/-- The substitution handling of one play: if the lowered type contains
`"substitution"`, the play has participants and its team is in the on-court
map, the first participant with a truthy id is discarded on `"subbing out"` /
`"exits"` and added on `"subbing in"` / `"enters"`. -/
def pmSubStep (p : Play) (oc : List (String × List (Option String))) :
    List (String × List (Option String)) :=
  let playText := strToLower p.text
  if strContains (strToLower p.typeText) "substitution" = true then
    match p.participants, ocLookup (playTeamId p) oc with
    | first :: _, some courtSet =>
      match first with
      | some aid =>
        if aid = "" then oc
        else if strContains playText "subbing out" = true ∨ strContains playText "exits" = true then
          ocSet (playTeamId p) (setDiscard (some aid) courtSet) oc
        else if strContains playText "subbing in" = true ∨ strContains playText "enters" = true then
          ocSet (playTeamId p) (setAdd (some aid) courtSet) oc
        else oc
      | none => oc
    | _, _ => oc
  else oc

/-- One iteration of the play loop of `calculate_plus_minus`. -/
def pmStep (homeTeamId : String) (s : PMState) (p : Play) : PMState :=
  let homeScore := p.homeScore.getD s.prevHome
  let awayScore := p.awayScore.getD s.prevAway
  let oc := pmSubStep p s.onCourt
  let homeDiff := homeScore - s.prevHome
  let awayDiff := awayScore - s.prevAway
  let pm :=
    if homeDiff ≠ 0 ∨ awayDiff ≠ 0 then pmAccum homeTeamId homeDiff awayDiff oc s.pm
    else s.pm
  ⟨pm, oc, homeScore, awayScore⟩

/-- `calculate_plus_minus(plays, boxscore, home_team_id)`: box-score
initialisation followed by the play loop; returns the accumulator. -/
def calculate_plus_minus (plays : List Play) (box : List BoxTeam)
    (homeTeamId : String) : List (String × Int) :=
  let ini := box.foldl initTeam ⟨[], []⟩
  (plays.foldl (pmStep homeTeamId) ⟨ini.pm, ini.onCourt, 0, 0⟩).pm

/-! ## Second-chance points calculator (`calculate_second_chance_pts`, lines 1996–2045) -/

/-- Which team currently holds the second-chance possession. -/
inductive SCTeam where
  | home
  | away
deriving DecidableEq

/-- The loop state of `calculate_second_chance_pts`: both running totals and
the second-chance possession marker. -/
structure SCState where
  home2ch : Int
  away2ch : Int
  chance : Option SCTeam
deriving DecidableEq

/-- The play categories that unconditionally clear the second-chance state. -/
def clearKeywords (ptype : String) : Bool :=
  strContains ptype "Defensive Rebound" || strContains ptype "Turnover" ||
  strContains ptype "End Period" || strContains ptype "Jumpball" ||
  strContains ptype "Dead Ball Rebound" || strContains ptype "Steal"

/-- One iteration of the play loop of `calculate_second_chance_pts`, mirroring
the `continue`-separated branch cascade of the source. -/
def scStep (homeTeamId awayTeamId : String) (s : SCState) (p : Play) : SCState :=
  let ptype := p.typeText
  let playTeam := playTeamId p
  let sv := p.scoreValue
  if strContains ptype "Offensive Rebound" = true ∧ playTeam ≠ "" then
    if playTeam = homeTeamId then ⟨s.home2ch, s.away2ch, some SCTeam.home⟩
    else if playTeam = awayTeamId then ⟨s.home2ch, s.away2ch, some SCTeam.away⟩
    else s
  else if p.scoringPlay = true ∧ sv ≠ 0 ∧ sv > 0 ∧ playTeam ≠ "" then
    let s1 : SCState :=
      if s.chance = some SCTeam.home ∧ playTeam = homeTeamId then
        ⟨s.home2ch + sv, s.away2ch, s.chance⟩
      else if s.chance = some SCTeam.away ∧ playTeam = awayTeamId then
        ⟨s.home2ch, s.away2ch + sv, s.chance⟩
      else s
    if strContains ptype "FreeThrow" = true then s1 else ⟨s1.home2ch, s1.away2ch, none⟩
  else if sv ≠ 0 ∧ p.scoringPlay = false ∧ playTeam ≠ "" then
    if s.chance = some SCTeam.home ∧ playTeam ≠ homeTeamId then ⟨s.home2ch, s.away2ch, none⟩
    else if s.chance = some SCTeam.away ∧ playTeam ≠ awayTeamId then ⟨s.home2ch, s.away2ch, none⟩
    else s
  else if clearKeywords ptype = true then ⟨s.home2ch, s.away2ch, none⟩
  else s

/-- `calculate_second_chance_pts(plays, home_team_id, away_team_id)`. -/
def calculate_second_chance_pts (plays : List Play) (homeTeamId awayTeamId : String) :
    Int × Int :=
  let final := plays.foldl (scStep homeTeamId awayTeamId) ⟨0, 0, none⟩
  (final.home2ch, final.away2ch)

/-! ## Lead/tie/biggest-lead summarizer (`generate_game_page`, lines 1896–1946) -/

/-- The signed lead from the tracked ("our") side's perspective; in this code
path absent scores default to `0`. -/
def leadOf (uscIsHome : Bool) (p : Play) : Int :=
  let home := p.homeScore.getD 0
  let away := p.awayScore.getD 0
  if uscIsHome then home - away else away - home

/-- The loop state of the lead summarizer.  A leader is `some true` for the
tracked side, `some false` for the opponent, `none` for tied. -/
structure LeadState where
  leadChanges : Nat
  timesTied : Nat
  uscBiggest : Int
  oppBiggest : Int
  lastLeader : Option Bool
  prevLeader : Option Bool
deriving DecidableEq

/-- One iteration of the lead summarizer over a scoring play. -/
def leadStep (uscIsHome : Bool) (s : LeadState) (p : Play) : LeadState :=
  let lead := leadOf uscIsHome p
  let uscB := if lead > 0 then max s.uscBiggest lead else s.uscBiggest
  let oppB := if lead < 0 then max s.oppBiggest (-lead) else s.oppBiggest
  let current : Option Bool :=
    if lead > 0 then some true else if lead < 0 then some false else none
  let lc :=
    match current, s.lastLeader with
    | some c, some l => if c ≠ l then s.leadChanges + 1 else s.leadChanges
    | _, _ => s.leadChanges
  let tt :=
    match current, s.prevLeader with
    | none, some _ => s.timesTied + 1
    | _, _ => s.timesTied
  let ll :=
    match current with
    | some c => some c
    | none => s.lastLeader
  ⟨lc, tt, uscB, oppB, ll, current⟩

/-- The lead/tie/biggest-lead summary: a fold of `leadStep` over the scoring
plays. -/
def leadSummary (uscIsHome : Bool) (plays : List Play) : LeadState :=
  (plays.filter (fun p => p.scoringPlay)).foldl (leadStep uscIsHome) ⟨0, 0, 0, 0, none, none⟩

/-! ## Lead-series discretizer (`generate_game_page`, lines 1760–1827) -/

/-- The 50-second segment (1–12) of a play's clock string, 6 when the clock
fails to parse (the bare `except` of the source). -/
def segmentOfClock (clockStr : String) : Int :=
  let parts := (splitChars ':' clockStr.toList).map String.mk
  let minsOpt :=
    match parts with
    | [] => none
    | m :: _ => parseInt m
  let secsOpt :=
    match parts with
    | _ :: sec :: _ => parseInt sec
    | _ => some 0
  match minsOpt, secsOpt with
  | some m, some sec =>
    let secondsElapsed : Int := 600 - (m * 60 + sec)
    if secondsElapsed ≤ 0 then 1
    else min 12 (Int.ofNat (secondsElapsed.toNat / 50 + 1))
  | _, _ => 6

/-- The chart column of a play: `(period - 1) * cols_per_quarter + segment`
with `cols_per_quarter = 13`. -/
def colOfPlay (p : Play) : Int :=
  (p.period.getD 1 - 1) * 13 + segmentOfClock (p.clock.getD "10:00")

/-- Upsert into the integer-keyed `lead_at_col` map (last write wins). -/
def icSet (k v : Int) : List (Int × Int) → List (Int × Int)
  | [] => [(k, v)]
  | kv :: rest => if kv.1 = k then (k, v) :: rest else kv :: icSet k v rest

/-- Lookup in the `lead_at_col` map. -/
def icLookup (k : Int) : List (Int × Int) → Option Int
  | [] => none
  | kv :: rest => if kv.1 = k then some kv.2 else icLookup k rest

/-- `lead_at_col`: the last recorded lead at each column touched by a scoring
play. -/
def buildLeadAtCol (uscIsHome : Bool) (plays : List Play) : List (Int × Int) :=
  (plays.filter (fun p => p.scoringPlay)).foldl
    (fun m p => icSet (colOfPlay p) (leadOf uscIsHome p) m) []

/-- One iteration of the densify loop: update `last_lead` from the recorded
map, then emit `none` at break columns and past the cutoff, otherwise the
carried lead. -/
def fillStep (cutoffCol : Int) (leadAt : List (Int × Int))
    (s : Int × List (Option Int)) (col : Nat) : Int × List (Option Int) :=
  let lastLead :=
    match icLookup (col : Int) leadAt with
    | some l => l
    | none => s.1
  if col % 13 = 0 ∨ (col : Int) > cutoffCol then (lastLead, s.2 ++ [none])
  else (lastLead, s.2 ++ [some lastLead])

/-- The densify loop over all `num_periods * 13 + 1` columns. -/
def fillLead (numPeriods : Nat) (cutoffCol : Int) (leadAt : List (Int × Int)) :
    List (Option Int) :=
  ((List.range (numPeriods * 13 + 1)).foldl (fillStep cutoffCol leadAt) (0, [])).2

/-- The densified lead series `filled_lead` of a completed game (the cutoff is
`total_cols`, so no column is past it). -/
def filled_lead (uscIsHome : Bool) (numPeriods : Nat) (plays : List Play) :
    List (Option Int) :=
  fillLead numPeriods (Int.ofNat (numPeriods * 13 + 1)) (buildLeadAtCol uscIsHome plays)

/-! ## Specification-side definitions

These express the claims' hypotheses and comparison values: effective running
scores under carry-forward defaulting, well-formedness of a play list, the
court multiplier of a player, aggregate sums, and the spec's description of
the densified series. -/

/-- The effective cumulative scores after a play list, carrying the previous
value forward wherever a score field is absent, starting from `(ph, pa)`. -/
def runScores (ph pa : Int) : List Play → Int × Int
  | [] => (ph, pa)
  | p :: rest => runScores (p.homeScore.getD ph) (p.awayScore.getD pa) rest

/-- No play changes the effective cumulative scores (the hypothesis of the
zero-scoring-plays claim). -/
def noScoreChange (ph pa : Int) : List Play → Bool
  | [] => true
  | p :: rest =>
    decide (p.homeScore.getD ph = ph) && decide (p.awayScore.getD pa = pa) &&
    noScoreChange ph pa rest

/-- Well-formedness of a play list (spec invariant): effective scores are
monotonically non-decreasing, and every scoring play with positive
`scoreValue` attributed to a team increments exactly that team's cumulative
score by its `scoreValue`. -/
def wellFormed (homeTeamId awayTeamId : String) (ph pa : Int) : List Play → Bool
  | [] => true
  | p :: rest =>
    let h := p.homeScore.getD ph
    let a := p.awayScore.getD pa
    decide (ph ≤ h) && decide (pa ≤ a) &&
    (if p.scoringPlay = true ∧ 0 < p.scoreValue ∧ playTeamId p = homeTeamId then
      decide (h = ph + p.scoreValue) else true) &&
    (if p.scoringPlay = true ∧ 0 < p.scoreValue ∧ playTeamId p = awayTeamId then
      decide (a = pa + p.scoreValue) else true) &&
    wellFormed homeTeamId awayTeamId h a rest

/-- An athlete's id when it is truthy in Python (present and non-empty). -/
def truthyId (a : Athlete) : Option String :=
  match a.athleteId with
  | some id => if id = "" then none else some id
  | none => none

/-- The truthy athlete ids of an athlete list, in order. -/
def truthyIds (l : List Athlete) : List String :=
  l.filterMap truthyId

/-- All truthy athlete ids read from a box score (each team's first
`statistics` entry, as in the source). -/
def boxAthleteIds : List BoxTeam → List String
  | [] => []
  | tb :: rest =>
    (match tb.statistics with
     | [] => []
     | aths :: _ => truthyIds aths) ++ boxAthleteIds rest

/-- The sum of a plus/minus result over one team's athlete list (athletes
without a truthy id contribute nothing, as they hold no key). -/
def teamPMSum (result : List (String × Int)) : List Athlete → Int
  | [] => 0
  | a :: rest =>
    (match truthyId a with
     | some id => (pmLookup id result).getD 0
     | none => 0) + teamPMSum result rest

/-- The number of occurrences of an id in an on-court list. -/
def occCount (x : Option String) : List (Option String) → Nat
  | [] => 0
  | y :: rest => (if y = x then 1 else 0) + occCount x rest

/-- The net multiplier a player receives per unit of `home_diff - away_diff`:
`+1` for each occurrence in the home team's on-court set, `-1` for each
occurrence in any other team's set. -/
def courtMult (homeTeamId x : String) :
    List (String × List (Option String)) → Int
  | [] => 0
  | e :: rest =>
    (occCount (some x) e.2 : Int) * (if e.1 = homeTeamId then 1 else -1) +
      courtMult homeTeamId x rest

/-- The spec's carried lead: `lastRecorded la n` is the value of `last_lead`
after the densify loop has visited columns `0, …, n-1` — the most recent
recorded lead at a column `< n`, defaulting to `0`. -/
def lastRecorded (la : List (Int × Int)) : Nat → Int
  | 0 => 0
  | n + 1 => (icLookup (Int.ofNat n) la).getD (lastRecorded la n)

/-- `TiedInsert u l l'` says `l'` is `l` with additional scoring plays of tied
recorded score (zero lead from the tracked side's perspective) inserted at
arbitrary positions. -/
inductive TiedInsert (uscIsHome : Bool) : List Play → List Play → Prop where
  | nil : TiedInsert uscIsHome [] []
  | keep (p : Play) {l l' : List Play} :
      TiedInsert uscIsHome l l' → TiedInsert uscIsHome (p :: l) (p :: l')
  | ins (p : Play) {l l' : List Play} :
      p.scoringPlay = true → leadOf uscIsHome p = 0 →
      TiedInsert uscIsHome l l' → TiedInsert uscIsHome l (p :: l')

/-- Replace a play's home score field. -/
def withHomeScore (p : Play) (v : Option Int) : Play :=
  ⟨p.typeText, p.text, p.teamId, p.scoringPlay, p.scoreValue, v, p.awayScore,
    p.participants, p.period, p.clock⟩

/-- Replace a play's away score field. -/
def withAwayScore (p : Play) (v : Option Int) : Play :=
  ⟨p.typeText, p.text, p.teamId, p.scoringPlay, p.scoreValue, p.homeScore, v,
    p.participants, p.period, p.clock⟩

/-! ## Concrete sample data for counterexamples and witnesses -/

/-- First play of the spec's end-to-end lead example: home 2–0 at 9:10. -/
def c1play1 : Play :=
  ⟨"Made Shot", "", some "H", true, 2, some 2, some 0, [], some 1, some "9:10"⟩

/-- Second play of the lead example: away 2–3 at 5:00. -/
def c1play2 : Play :=
  ⟨"Made Shot", "", some "A", true, 3, some 2, some 3, [], some 1, some "5:00"⟩

/-- Third play of the lead example: home 5–3 at 1:00. -/
def c1play3 : Play :=
  ⟨"Made Shot", "", some "H", true, 3, some 5, some 3, [], some 1, some "1:00"⟩

/-- The spec's end-to-end lead example: 2–0 at 9:10, 2–3 at 5:00, 5–3 at 1:00,
all in period 1, all scoring. -/
def c1plays : List Play :=
  [c1play1, c1play2, c1play3]

/-- A tied scoring play (3–3) for insertion into the lead example. -/
def tiedPlay : Play :=
  ⟨"Made Shot", "", some "A", true, 1, some 3, some 3, [], some 1, some "4:00"⟩

/-- A box score: home team `"H"` with starter `p1` and bench player `p2`,
away team `"A"` with starter `q1`. -/
def c2box : List BoxTeam :=
  [ ⟨"H", [[⟨some "p1", true⟩, ⟨some "p2", false⟩]]⟩,
    ⟨"A", [[⟨some "q1", true⟩]]⟩ ]

/-- A single substitution play whose free text names `p1` subbing out and
`p2` subbing in; `p1` is the first (and only) participant. -/
def c2sub : Play :=
  ⟨"Substitution", "Player One subbing out, Player Two subbing in", some "H", false, 0,
    none, none, [some "p1"], some 1, some "8:00"⟩

/-- A home scoring play following the substitution. -/
def c2score : Play :=
  ⟨"Made Shot", "Player makes layup", some "H", true, 2, some 2, some 0, [],
    some 1, some "7:00"⟩

/-- The substitution play followed by the scoring play. -/
def c2plays : List Play :=
  [c2sub, c2score]

/-- Five tracked home starters. -/
def c3homeAthletes : List Athlete :=
  [⟨some "s1", true⟩, ⟨some "s2", true⟩, ⟨some "s3", true⟩,
   ⟨some "s4", true⟩, ⟨some "s5", true⟩]

/-- Five tracked away starters. -/
def c3awayAthletes : List Athlete :=
  [⟨some "t1", true⟩, ⟨some "t2", true⟩, ⟨some "t3", true⟩,
   ⟨some "t4", true⟩, ⟨some "t5", true⟩]

/-- A box score with five tracked home starters and five away starters. -/
def c3box : List BoxTeam :=
  [⟨"H", [c3homeAthletes]⟩, ⟨"A", [c3awayAthletes]⟩]

/-- One home scoring play, final score 2–0, no substitutions. -/
def c3plays : List Play :=
  [ ⟨"Made Shot", "Player makes layup", some "H", true, 2, some 2, some 0, [],
      some 1, some "9:00"⟩ ]

/-- A scoring play typed as an offensive rebound: it is captured by the
rebound branch of the second-chance cascade, not the scoring branch. -/
def orScoringPlay : Play :=
  ⟨"Offensive Rebound", "", some "H", true, 2, some 2, some 0, [], some 1, some "9:00"⟩

/-- An ordinary made field goal attributed to the home team. -/
def jumperPlay : Play :=
  ⟨"JumperShot", "Player makes jumper", some "H", true, 2, some 2, some 0, [],
    some 1, some "9:00"⟩

/-- A non-scoring play list (a foul and a timeout) over the `c2box` rosters. -/
def c7plays : List Play :=
  [ ⟨"Foul", "Personal foul", some "H", false, 0, none, none, [], some 1, some "9:00"⟩,
    ⟨"Timeout", "Official timeout", none, false, 0, none, none, [], some 1, some "8:00"⟩ ]

/-- A play with every optional field absent. -/
def bareSubPlay : Play :=
  ⟨"Substitution", "Player subbing out", none, false, 0, none, none, [], none, none⟩

/-! ## Lemmas about the plus/minus accumulator -/

theorem pmLookup_cons (k : String) (kv : String × Int) (rest : List (String × Int)) :
    pmLookup k (kv :: rest) = if kv.1 = k then some kv.2 else pmLookup k rest := rfl

theorem pmLookup_pmAdd_ne (x y : String) (d : Int) (m : List (String × Int))
    (hxy : x ≠ y) : pmLookup x (pmAdd y d m) = pmLookup x m := by
  induction m with
  | nil => rfl
  | cons kv rest ih =>
    have hmap : pmAdd y d (kv :: rest)
        = (if kv.1 = y then (kv.1, kv.2 + d) else kv) :: pmAdd y d rest := by
      simp [pmAdd]
    rw [hmap, pmLookup_cons, pmLookup_cons]
    by_cases h1 : kv.1 = y
    · rw [if_pos h1]
      by_cases h2 : kv.1 = x
      · exact absurd (h2.symm.trans h1) hxy
      · simp [h2, ih]
    · rw [if_neg h1]
      by_cases h2 : kv.1 = x
      · simp [h2]
      · simp [h2, ih]

theorem pmLookup_pmAdd_eq (x : String) (d : Int) (m : List (String × Int)) :
    pmLookup x (pmAdd x d m) = (pmLookup x m).map (· + d) := by
  induction m with
  | nil => rfl
  | cons kv rest ih =>
    have hmap : pmAdd x d (kv :: rest)
        = (if kv.1 = x then (kv.1, kv.2 + d) else kv) :: pmAdd x d rest := by
      simp [pmAdd]
    rw [hmap, pmLookup_cons, pmLookup_cons]
    by_cases h2 : kv.1 = x
    · simp [h2]
    · simp [h2, ih]

theorem occCount_cons (x y : Option String) (l : List (Option String)) :
    occCount x (y :: l) = (if y = x then 1 else 0) + occCount x l := rfl

theorem occCount_eq_zero (x : Option String) (l : List (Option String))
    (h : x ∉ l) : occCount x l = 0 := by
  induction l with
  | nil => rfl
  | cons y l ih =>
    have hy : ¬y = x := by
      intro he
      exact h (by rw [← he]; exact List.mem_cons_self y l)
    rw [occCount_cons, if_neg hy, ih (fun hm => h (List.mem_cons_of_mem y hm))]

theorem pmAccumTeam_lookup (hid : String) (hd ad : Int) (t x : String)
    (l : List (Option String)) :
    ∀ (pm : List (String × Int)) (v : Int), pmLookup x pm = some v →
      pmLookup x (l.foldl (pmAccumPlayer hid hd ad t) pm)
        = some (v + (occCount (some x) l : Int) * (if t = hid then hd - ad else ad - hd)) := by
  induction l with
  | nil => intro pm v h; simp [occCount, h]
  | cons a l ih =>
    intro pm v h
    simp only [List.foldl_cons]
    cases a with
    | none =>
      have hc : occCount (some x) (none :: l) = occCount (some x) l := by
        simp [occCount_cons]
      rw [hc]
      exact ih pm v h
    | some b =>
      by_cases hxb : x = b
      · subst hxb
        have hl : pmLookup x (pmAccumPlayer hid hd ad t pm (some x))
            = some (v + (if t = hid then hd - ad else ad - hd)) := by
          simp [pmAccumPlayer, pmLookup_pmAdd_eq, h]
        have hc : occCount (some x) (some x :: l) = occCount (some x) l + 1 := by
          rw [occCount_cons, if_pos rfl]
          omega
        rw [hc, ih _ _ hl]
        congr 1
        push_cast
        ring
      · have hl : pmLookup x (pmAccumPlayer hid hd ad t pm (some b)) = some v := by
          simp only [pmAccumPlayer]
          rw [pmLookup_pmAdd_ne x b _ pm hxb]
          exact h
        have hc : occCount (some x) (some b :: l) = occCount (some x) l := by
          rw [occCount_cons, if_neg (by simpa using fun he => hxb he.symm)]
          omega
        rw [hc, ih _ _ hl]

theorem pmAccum_lookup (hid : String) (hd ad : Int) (x : String)
    (oc : List (String × List (Option String))) :
    ∀ (pm : List (String × Int)) (v : Int), pmLookup x pm = some v →
      pmLookup x (pmAccum hid hd ad oc pm)
        = some (v + courtMult hid x oc * (hd - ad)) := by
  induction oc with
  | nil => intro pm v h; simp [pmAccum, courtMult, h]
  | cons e oc ih =>
    intro pm v h
    have hstep : pmLookup x (pmAccumTeam hid hd ad pm e)
        = some (v + (occCount (some x) e.2 : Int) * (if e.1 = hid then hd - ad else ad - hd)) :=
      pmAccumTeam_lookup hid hd ad e.1 x e.2 pm v h
    have : pmAccum hid hd ad (e :: oc) pm
        = pmAccum hid hd ad oc (pmAccumTeam hid hd ad pm e) := by
      simp [pmAccum]
    rw [this, ih _ _ hstep]
    congr 1
    simp only [courtMult]
    by_cases he : e.1 = hid <;> simp [he] <;> ring

theorem pmStep_prevHome (hid : String) (s : PMState) (p : Play) :
    (pmStep hid s p).prevHome = p.homeScore.getD s.prevHome := rfl

theorem pmStep_prevAway (hid : String) (s : PMState) (p : Play) :
    (pmStep hid s p).prevAway = p.awayScore.getD s.prevAway := rfl

theorem pmStep_onCourt (hid : String) (s : PMState) (p : Play) :
    (pmStep hid s p).onCourt = pmSubStep p s.onCourt := rfl

theorem pmStep_lookup (hid : String) (s : PMState) (p : Play) (x : String) (v : Int)
    (h : pmLookup x s.pm = some v) :
    pmLookup x (pmStep hid s p).pm
      = some (v + courtMult hid x (pmSubStep p s.onCourt) *
          ((p.homeScore.getD s.prevHome - s.prevHome) -
           (p.awayScore.getD s.prevAway - s.prevAway))) := by
  simp only [pmStep]
  split_ifs with hcond
  · exact pmAccum_lookup hid _ _ x _ s.pm v h
  · push_neg at hcond
    rw [hcond.1, hcond.2]
    simp [h]

theorem pmFold_prev (hid : String) (plays : List Play) :
    ∀ s : PMState,
      ((plays.foldl (pmStep hid) s).prevHome, (plays.foldl (pmStep hid) s).prevAway)
        = runScores s.prevHome s.prevAway plays := by
  induction plays with
  | nil => intro s; rfl
  | cons p rest ih =>
    intro s
    simp only [List.foldl_cons, runScores]
    rw [← pmStep_prevHome hid s p, ← pmStep_prevAway hid s p]
    exact ih (pmStep hid s p)

theorem pmSubStep_not_sub (p : Play) (oc : List (String × List (Option String)))
    (h : strContains (strToLower p.typeText) "substitution" = false) :
    pmSubStep p oc = oc := by
  simp [pmSubStep, h]

theorem pmFold_onCourt_nosub (hid : String) (plays : List Play) :
    ∀ s : PMState,
      (∀ p ∈ plays, strContains (strToLower p.typeText) "substitution" = false) →
      (plays.foldl (pmStep hid) s).onCourt = s.onCourt := by
  induction plays with
  | nil => intro s _; rfl
  | cons p rest ih =>
    intro s hns
    simp only [List.foldl_cons]
    rw [ih (pmStep hid s p) (fun q hq => hns q (List.mem_cons_of_mem p hq)),
      pmStep_onCourt, pmSubStep_not_sub p s.onCourt (hns p (List.mem_cons_self p rest))]

theorem pmFold_value_nosub (hid : String) (plays : List Play) :
    ∀ (s : PMState) (x : String) (v : Int),
      (∀ p ∈ plays, strContains (strToLower p.typeText) "substitution" = false) →
      pmLookup x s.pm = some v →
      pmLookup x ((plays.foldl (pmStep hid) s).pm)
        = some (v + courtMult hid x s.onCourt *
            (((runScores s.prevHome s.prevAway plays).1 - s.prevHome) -
             ((runScores s.prevHome s.prevAway plays).2 - s.prevAway))) := by
  induction plays with
  | nil =>
    intro s x v _ h
    simp [runScores, h]
  | cons p rest ih =>
    intro s x v hns h
    have hsub : pmSubStep p s.onCourt = s.onCourt :=
      pmSubStep_not_sub p s.onCourt (hns p (List.mem_cons_self p rest))
    have hstep := pmStep_lookup hid s p x v h
    rw [hsub] at hstep
    simp only [List.foldl_cons]
    have hoc : (pmStep hid s p).onCourt = s.onCourt := by
      rw [pmStep_onCourt, hsub]
    have hrec := ih (pmStep hid s p) x _
      (fun q hq => hns q (List.mem_cons_of_mem p hq)) hstep
    rw [hoc, pmStep_prevHome, pmStep_prevAway] at hrec
    rw [hrec]
    simp only [runScores]
    congr 1
    ring

/-! ## Key-set lemmas: the play loop never adds or removes accumulator keys -/

theorem pmAdd_keys (k : String) (d : Int) (m : List (String × Int)) :
    (pmAdd k d m).map Prod.fst = m.map Prod.fst := by
  induction m with
  | nil => rfl
  | cons kv rest ih =>
    have hmap : pmAdd k d (kv :: rest)
        = (if kv.1 = k then (kv.1, kv.2 + d) else kv) :: pmAdd k d rest := by
      simp [pmAdd]
    rw [hmap]
    by_cases h : kv.1 = k <;> simp [h, ih]

theorem pmAccumPlayer_keys (hid : String) (hd ad : Int) (t : String)
    (pm : List (String × Int)) (aid : Option String) :
    (pmAccumPlayer hid hd ad t pm aid).map Prod.fst = pm.map Prod.fst := by
  cases aid <;> simp [pmAccumPlayer, pmAdd_keys]

theorem pmAccumTeam_keys (hid : String) (hd ad : Int) (t : String)
    (l : List (Option String)) :
    ∀ pm : List (String × Int),
      (l.foldl (pmAccumPlayer hid hd ad t) pm).map Prod.fst = pm.map Prod.fst := by
  induction l with
  | nil => intro pm; rfl
  | cons a l ih =>
    intro pm
    simp only [List.foldl_cons]
    rw [ih (pmAccumPlayer hid hd ad t pm a), pmAccumPlayer_keys]

theorem pmAccum_keys (hid : String) (hd ad : Int)
    (oc : List (String × List (Option String))) :
    ∀ pm : List (String × Int),
      (pmAccum hid hd ad oc pm).map Prod.fst = pm.map Prod.fst := by
  induction oc with
  | nil => intro pm; rfl
  | cons e oc ih =>
    intro pm
    have : pmAccum hid hd ad (e :: oc) pm
        = pmAccum hid hd ad oc (pmAccumTeam hid hd ad pm e) := by
      simp [pmAccum]
    rw [this, ih, pmAccumTeam, pmAccumTeam_keys]

theorem pmStep_keys (hid : String) (s : PMState) (p : Play) :
    ((pmStep hid s p).pm).map Prod.fst = s.pm.map Prod.fst := by
  simp only [pmStep]
  split_ifs with h
  · exact pmAccum_keys hid _ _ _ s.pm
  · rfl

theorem pmFold_keys (hid : String) (plays : List Play) :
    ∀ s : PMState,
      ((plays.foldl (pmStep hid) s).pm).map Prod.fst = s.pm.map Prod.fst := by
  induction plays with
  | nil => intro s; rfl
  | cons p rest ih =>
    intro s
    simp only [List.foldl_cons]
    rw [ih (pmStep hid s p), pmStep_keys]

/-! ## Lookup / membership lemmas -/

theorem pmLookup_none_iff (x : String) (m : List (String × Int)) :
    pmLookup x m = none ↔ x ∉ m.map Prod.fst := by
  induction m with
  | nil => simp [pmLookup]
  | cons kv rest ih =>
    by_cases h : kv.1 = x
    · rw [pmLookup_cons, if_pos h]
      simp only [List.map_cons, List.mem_cons]
      constructor
      · intro hs
        exact (Option.some_ne_none kv.2 hs).elim
      · intro hn
        exact absurd (Or.inl h.symm) hn
    · rw [pmLookup_cons, if_neg h, ih]
      simp only [List.map_cons, List.mem_cons]
      constructor
      · intro hn hor
        rcases hor with he | hm
        · exact h he.symm
        · exact hn hm
      · intro hn hm
        exact hn (Or.inr hm)

theorem pmLookup_isSome_iff (x : String) (m : List (String × Int)) :
    (pmLookup x m).isSome = true ↔ x ∈ m.map Prod.fst := by
  induction m with
  | nil => simp [pmLookup]
  | cons kv rest ih =>
    by_cases h : kv.1 = x
    · rw [pmLookup_cons, if_pos h]
      simp only [Option.isSome_some, List.map_cons, List.mem_cons]
      constructor
      · intro _
        exact Or.inl h.symm
      · intro _
        trivial
    · rw [pmLookup_cons, if_neg h, ih]
      simp only [List.map_cons, List.mem_cons]
      constructor
      · intro hm
        exact Or.inr hm
      · intro hor
        rcases hor with he | hm
        · exact absurd he.symm h
        · exact hm

theorem pmLookup_some_mem (x : String) (v : Int) (m : List (String × Int))
    (h : pmLookup x m = some v) : (x, v) ∈ m := by
  induction m with
  | nil => simp [pmLookup] at h
  | cons kv rest ih =>
    rw [pmLookup_cons] at h
    by_cases hk : kv.1 = x
    · rw [if_pos hk] at h
      have hv : kv.2 = v := by simpa using h
      have hkv : kv = (x, v) := by
        calc kv = (kv.1, kv.2) := rfl
          _ = (x, v) := by rw [hk, hv]
      rw [← hkv]
      exact List.mem_cons_self kv rest
    · rw [if_neg hk] at h
      exact List.mem_cons_of_mem kv (ih h)

theorem pmSet_keys_mem (x k : String) (v : Int) (m : List (String × Int)) :
    x ∈ (pmSet k v m).map Prod.fst ↔ x = k ∨ x ∈ m.map Prod.fst := by
  induction m with
  | nil => simp [pmSet]
  | cons kv rest ih =>
    by_cases h : kv.1 = k
    · simp only [pmSet, if_pos h, List.map_cons, List.mem_cons]
      constructor
      · rintro (he | hm)
        · exact Or.inl he
        · exact Or.inr (Or.inr hm)
      · rintro (he | he | hm)
        · exact Or.inl he
        · exact Or.inl (by rw [he, h])
        · exact Or.inr hm
    · simp only [pmSet, if_neg h, List.map_cons, List.mem_cons, ih]
      tauto

/-! ## Initialisation lemmas: every initial accumulator value is zero, and the
initial key set is exactly the truthy box-score ids -/

theorem pmSet_zero_values (k : String) (m : List (String × Int))
    (h : ∀ kv ∈ m, kv.2 = 0) : ∀ kv ∈ pmSet k 0 m, kv.2 = (0 : Int) := by
  induction m with
  | nil =>
    intro kv hkv
    simp [pmSet] at hkv
    rw [hkv]
  | cons e rest ih =>
    intro kv hkv
    by_cases he : e.1 = k
    · rw [pmSet, if_pos he, List.mem_cons] at hkv
      rcases hkv with h1 | h2
      · rw [h1]
      · exact h kv (List.mem_cons_of_mem e h2)
    · rw [pmSet, if_neg he, List.mem_cons] at hkv
      rcases hkv with h1 | h2
      · rw [h1]
        exact h e (List.mem_cons_self e rest)
      · exact ih (fun x hx => h x (List.mem_cons_of_mem e hx)) kv h2

theorem pmInitPlayer_zero_values (pm : List (String × Int)) (a : Athlete)
    (h : ∀ kv ∈ pm, kv.2 = 0) : ∀ kv ∈ pmInitPlayer pm a, kv.2 = (0 : Int) := by
  unfold pmInitPlayer
  cases ha : a.athleteId with
  | none => exact h
  | some id =>
    by_cases hi : id = ""
    · simpa [hi] using h
    · simpa [hi] using pmSet_zero_values id pm h

theorem athFold_zero_values (aths : List Athlete) :
    ∀ pm : List (String × Int), (∀ kv ∈ pm, kv.2 = 0) →
      ∀ kv ∈ aths.foldl pmInitPlayer pm, kv.2 = (0 : Int) := by
  induction aths with
  | nil => intro pm h; exact h
  | cons a aths ih =>
    intro pm h
    simp only [List.foldl_cons]
    exact ih (pmInitPlayer pm a) (pmInitPlayer_zero_values pm a h)

theorem initFold_zero_values (box : List BoxTeam) :
    ∀ s : PMInit, (∀ kv ∈ s.pm, kv.2 = 0) →
      ∀ kv ∈ (box.foldl initTeam s).pm, kv.2 = (0 : Int) := by
  induction box with
  | nil => intro s h; exact h
  | cons tb box ih =>
    intro s h
    simp only [List.foldl_cons]
    refine ih (initTeam s tb) ?_
    unfold initTeam
    cases tb.statistics with
    | nil => exact h
    | cons aths rest => exact athFold_zero_values aths s.pm h

theorem init_lookup_zero (box : List BoxTeam) (x : String) (v : Int)
    (h : pmLookup x ((box.foldl initTeam ⟨[], []⟩).pm) = some v) : v = 0 := by
  have hz := initFold_zero_values box ⟨[], []⟩ (by intro kv hkv; simp at hkv)
  exact hz (x, v) (pmLookup_some_mem x v _ h)

theorem pmInitPlayer_keys_mem (x : String) (pm : List (String × Int)) (a : Athlete) :
    x ∈ (pmInitPlayer pm a).map Prod.fst ↔ truthyId a = some x ∨ x ∈ pm.map Prod.fst := by
  unfold pmInitPlayer truthyId
  cases ha : a.athleteId with
  | none => simp
  | some id =>
    by_cases hi : id = ""
    · simp [hi]
    · simp only [hi, if_neg hi, if_false, pmSet_keys_mem, Option.some.injEq]
      constructor
      · rintro (he | hm)
        · exact Or.inl he.symm
        · exact Or.inr hm
      · rintro (he | hm)
        · exact Or.inl he.symm
        · exact Or.inr hm

theorem athFold_keys_mem (x : String) (aths : List Athlete) :
    ∀ pm : List (String × Int),
      x ∈ (aths.foldl pmInitPlayer pm).map Prod.fst
        ↔ x ∈ truthyIds aths ∨ x ∈ pm.map Prod.fst := by
  induction aths with
  | nil => intro pm; simp [truthyIds]
  | cons a aths ih =>
    intro pm
    simp only [List.foldl_cons]
    rw [ih (pmInitPlayer pm a), pmInitPlayer_keys_mem]
    unfold truthyIds
    rw [List.filterMap_cons]
    cases ht : truthyId a with
    | none => simp [truthyIds]
    | some id =>
      simp only [List.mem_cons, Option.some.injEq, truthyIds]
      constructor
      · rintro (hm | he | hm)
        · exact Or.inl (Or.inr hm)
        · exact Or.inl (Or.inl he.symm)
        · exact Or.inr hm
      · rintro ((he | hm) | hm)
        · exact Or.inr (Or.inl he.symm)
        · exact Or.inl hm
        · exact Or.inr (Or.inr hm)

theorem initTeam_pm_nil (s : PMInit) (tb : BoxTeam) (h : tb.statistics = []) :
    (initTeam s tb).pm = s.pm := by
  unfold initTeam
  rw [h]

theorem initTeam_pm_cons (s : PMInit) (tb : BoxTeam) (aths : List Athlete)
    (rest : List (List Athlete)) (h : tb.statistics = aths :: rest) :
    (initTeam s tb).pm = aths.foldl pmInitPlayer s.pm := by
  unfold initTeam
  rw [h]

theorem initTeam_oc_nil (s : PMInit) (tb : BoxTeam) (h : tb.statistics = []) :
    (initTeam s tb).onCourt = s.onCourt := by
  unfold initTeam
  rw [h]

theorem initTeam_oc_cons (s : PMInit) (tb : BoxTeam) (aths : List Athlete)
    (rest : List (List Athlete)) (h : tb.statistics = aths :: rest) :
    (initTeam s tb).onCourt
      = ocSet tb.teamId
          (setOfList ((aths.filter (fun a => a.starter)).map (fun a => a.athleteId)))
          s.onCourt := by
  unfold initTeam
  rw [h]

theorem boxAthleteIds_cons_nil (tb : BoxTeam) (box : List BoxTeam)
    (h : tb.statistics = []) :
    boxAthleteIds (tb :: box) = boxAthleteIds box := by
  have e : boxAthleteIds (tb :: box)
      = (match tb.statistics with
         | [] => ([] : List String)
         | aths :: _ => truthyIds aths) ++ boxAthleteIds box := rfl
  rw [e, h]
  rfl

theorem boxAthleteIds_cons_cons (tb : BoxTeam) (box : List BoxTeam)
    (aths : List Athlete) (rest : List (List Athlete)) (h : tb.statistics = aths :: rest) :
    boxAthleteIds (tb :: box) = truthyIds aths ++ boxAthleteIds box := by
  have e : boxAthleteIds (tb :: box)
      = (match tb.statistics with
         | [] => ([] : List String)
         | aths :: _ => truthyIds aths) ++ boxAthleteIds box := rfl
  rw [e, h]

theorem initFold_keys_mem (box : List BoxTeam) :
    ∀ (s : PMInit) (x : String),
      x ∈ ((box.foldl initTeam s).pm).map Prod.fst
        ↔ x ∈ boxAthleteIds box ∨ x ∈ s.pm.map Prod.fst := by
  induction box with
  | nil =>
    intro s x
    simp [boxAthleteIds]
  | cons tb box ih =>
    intro s x
    simp only [List.foldl_cons]
    rw [ih (initTeam s tb) x]
    cases hs : tb.statistics with
    | nil =>
      rw [initTeam_pm_nil s tb hs, boxAthleteIds_cons_nil tb box hs]
    | cons aths rest =>
      rw [initTeam_pm_cons s tb aths rest hs, boxAthleteIds_cons_cons tb box aths rest hs,
        athFold_keys_mem]
      simp only [List.mem_append]
      tauto

/-! ## Set lemmas -/

theorem mem_setAdd (y x : Option String) (s : List (Option String)) :
    y ∈ setAdd x s ↔ y = x ∨ y ∈ s := by
  by_cases h : x ∈ s
  · rw [setAdd, if_pos h]
    constructor
    · intro hy
      exact Or.inr hy
    · rintro (rfl | hy)
      · exact h
      · exact hy
  · rw [setAdd, if_neg h]
    simp [List.mem_append, or_comm]

theorem nodup_setAdd (x : Option String) (s : List (Option String))
    (h : s.Nodup) : (setAdd x s).Nodup := by
  by_cases hx : x ∈ s
  · rw [setAdd, if_pos hx]
    exact h
  · rw [setAdd, if_neg hx]
    exact h.append (List.nodup_singleton x) (List.disjoint_singleton.mpr hx)

theorem mem_setOfList_aux (l : List (Option String)) :
    ∀ (acc : List (Option String)) (y : Option String),
      y ∈ l.foldl (fun acc x => setAdd x acc) acc ↔ y ∈ acc ∨ y ∈ l := by
  induction l with
  | nil => intro acc y; simp
  | cons x l ih =>
    intro acc y
    simp only [List.foldl_cons]
    rw [ih (setAdd x acc) y, mem_setAdd]
    simp only [List.mem_cons]
    tauto

theorem mem_setOfList (y : Option String) (l : List (Option String)) :
    y ∈ setOfList l ↔ y ∈ l := by
  rw [setOfList, mem_setOfList_aux]
  simp

theorem nodup_setOfList_aux (l : List (Option String)) :
    ∀ acc : List (Option String), acc.Nodup →
      (l.foldl (fun acc x => setAdd x acc) acc).Nodup := by
  induction l with
  | nil => intro acc h; exact h
  | cons x l ih =>
    intro acc h
    simp only [List.foldl_cons]
    exact ih (setAdd x acc) (nodup_setAdd x acc h)

theorem nodup_setOfList (l : List (Option String)) : (setOfList l).Nodup :=
  nodup_setOfList_aux l [] List.nodup_nil

theorem occCount_eq_one (x : Option String) (l : List (Option String))
    (hnd : l.Nodup) (hm : x ∈ l) : occCount x l = 1 := by
  induction l with
  | nil => simp at hm
  | cons y l ih =>
    rw [List.mem_cons] at hm
    rcases hm with h1 | h2
    · rw [occCount_cons, if_pos h1.symm,
        occCount_eq_zero x l (by rw [h1]; exact (List.nodup_cons.mp hnd).1)]
    · have hy : ¬y = x := by
        intro he
        exact (List.nodup_cons.mp hnd).1 (he ▸ h2)
      rw [occCount_cons, if_neg hy, ih (List.nodup_cons.mp hnd).2 h2]

theorem occCount_setOfList (y : Option String) (l : List (Option String)) :
    occCount y (setOfList l) = if y ∈ l then 1 else 0 := by
  by_cases h : y ∈ l
  · rw [if_pos h]
    exact occCount_eq_one y _ (nodup_setOfList l) ((mem_setOfList y l).mpr h)
  · rw [if_neg h]
    exact occCount_eq_zero y _ (fun hc => h ((mem_setOfList y l).mp hc))

/-! ## Lead summarizer lemmas -/

theorem leadStep_proj (u : Bool) (p : Play) (s t : LeadState)
    (h1 : s.leadChanges = t.leadChanges) (h2 : s.lastLeader = t.lastLeader) :
    (leadStep u s p).leadChanges = (leadStep u t p).leadChanges ∧
    (leadStep u s p).lastLeader = (leadStep u t p).lastLeader := by
  unfold leadStep
  rw [h1, h2]
  exact ⟨rfl, rfl⟩

theorem leadStep_tied (u : Bool) (p : Play) (s : LeadState) (h : leadOf u p = 0) :
    (leadStep u s p).leadChanges = s.leadChanges ∧
    (leadStep u s p).lastLeader = s.lastLeader := by
  unfold leadStep
  rw [h]
  simp

theorem leadFold_proj (u : Bool) (l : List Play) :
    ∀ s t : LeadState, s.leadChanges = t.leadChanges → s.lastLeader = t.lastLeader →
      (l.foldl (leadStep u) s).leadChanges = (l.foldl (leadStep u) t).leadChanges ∧
      (l.foldl (leadStep u) s).lastLeader = (l.foldl (leadStep u) t).lastLeader := by
  induction l with
  | nil => intro s t h1 h2; exact ⟨h1, h2⟩
  | cons p l ih =>
    intro s t h1 h2
    simp only [List.foldl_cons]
    obtain ⟨g1, g2⟩ := leadStep_proj u p s t h1 h2
    exact ih _ _ g1 g2

theorem tiedInsert_leadChanges_aux (u : Bool) {l l' : List Play}
    (h : TiedInsert u l l') :
    ∀ s t : LeadState, s.leadChanges = t.leadChanges → s.lastLeader = t.lastLeader →
      ((l.filter (fun p => p.scoringPlay)).foldl (leadStep u) s).leadChanges
        = ((l'.filter (fun p => p.scoringPlay)).foldl (leadStep u) t).leadChanges := by
  induction h with
  | nil =>
    intro s t h1 _
    exact h1
  | keep p hrec ih =>
    intro s t h1 h2
    rw [List.filter_cons, List.filter_cons]
    by_cases hp : p.scoringPlay = true
    · rw [if_pos hp, if_pos hp]
      simp only [List.foldl_cons]
      obtain ⟨g1, g2⟩ := leadStep_proj u p s t h1 h2
      exact ih _ _ g1 g2
    · rw [if_neg hp, if_neg hp]
      exact ih s t h1 h2
  | ins p hscore htied hrec ih =>
    intro s t h1 h2
    rw [List.filter_cons, if_pos hscore]
    simp only [List.foldl_cons]
    obtain ⟨g1, g2⟩ := leadStep_tied u p t htied
    exact ih s (leadStep u t p) (h1.trans g1.symm) (h2.trans g2.symm)

/-! ## Court-multiplier lemmas -/

theorem courtMult_eq_zero (hid x : String) (oc : List (String × List (Option String)))
    (h : ∀ e ∈ oc, (some x) ∉ e.2) : courtMult hid x oc = 0 := by
  induction oc with
  | nil => rfl
  | cons e oc ih =>
    have h0 : occCount (some x) e.2 = 0 :=
      occCount_eq_zero _ _ (h e (List.mem_cons_self e oc))
    have : courtMult hid x (e :: oc)
        = (occCount (some x) e.2 : Int) * (if e.1 = hid then 1 else -1)
          + courtMult hid x oc := rfl
    rw [this, h0, ih (fun f hf => h f (List.mem_cons_of_mem e hf))]
    simp

/-! ## No-score-change lemma -/

theorem noScoreChange_cons (ph pa : Int) (p : Play) (rest : List Play) :
    noScoreChange ph pa (p :: rest)
      = (decide (p.homeScore.getD ph = ph) && decide (p.awayScore.getD pa = pa) &&
        noScoreChange ph pa rest) := rfl

theorem pmFold_pm_noChange (hid : String) (plays : List Play) :
    ∀ s : PMState, noScoreChange s.prevHome s.prevAway plays = true →
      (plays.foldl (pmStep hid) s).pm = s.pm := by
  induction plays with
  | nil => intro s _; rfl
  | cons p rest ih =>
    intro s h
    rw [noScoreChange_cons] at h
    simp only [Bool.and_eq_true, decide_eq_true_eq] at h
    obtain ⟨⟨h1, h2⟩, h3⟩ := h
    simp only [List.foldl_cons]
    have hpm : (pmStep hid s p).pm = s.pm := by
      simp only [pmStep]
      rw [h1, h2]
      simp
    have hph : (pmStep hid s p).prevHome = s.prevHome := by
      rw [pmStep_prevHome, h1]
    have hpa : (pmStep hid s p).prevAway = s.prevAway := by
      rw [pmStep_prevAway, h2]
    have hrest : noScoreChange (pmStep hid s p).prevHome (pmStep hid s p).prevAway rest = true := by
      rw [hph, hpa]
      exact h3
    rw [ih (pmStep hid s p) hrest, hpm]

/-! ## Second-chance step lemmas -/

theorem scStep_eq_rebound (hid aid : String) (s : SCState) (p : Play)
    (h : strContains p.typeText "Offensive Rebound" = true ∧ playTeamId p ≠ "") :
    scStep hid aid s p
      = (if playTeamId p = hid then ⟨s.home2ch, s.away2ch, some SCTeam.home⟩
         else if playTeamId p = aid then ⟨s.home2ch, s.away2ch, some SCTeam.away⟩
         else s) := by
  simp only [scStep]
  rw [if_pos h]

theorem scStep_eq_scoring (hid aid : String) (s : SCState) (p : Play)
    (h1 : ¬(strContains p.typeText "Offensive Rebound" = true ∧ playTeamId p ≠ ""))
    (h2 : p.scoringPlay = true ∧ p.scoreValue ≠ 0 ∧ p.scoreValue > 0 ∧ playTeamId p ≠ "") :
    scStep hid aid s p
      = (let s1 : SCState :=
           if s.chance = some SCTeam.home ∧ playTeamId p = hid then
             ⟨s.home2ch + p.scoreValue, s.away2ch, s.chance⟩
           else if s.chance = some SCTeam.away ∧ playTeamId p = aid then
             ⟨s.home2ch, s.away2ch + p.scoreValue, s.chance⟩
           else s
         if strContains p.typeText "FreeThrow" = true then s1
         else ⟨s1.home2ch, s1.away2ch, none⟩) := by
  simp only [scStep]
  rw [if_neg h1, if_pos h2]

theorem scStep_eq_missed (hid aid : String) (s : SCState) (p : Play)
    (h1 : ¬(strContains p.typeText "Offensive Rebound" = true ∧ playTeamId p ≠ ""))
    (h2 : ¬(p.scoringPlay = true ∧ p.scoreValue ≠ 0 ∧ p.scoreValue > 0 ∧ playTeamId p ≠ ""))
    (h3 : p.scoreValue ≠ 0 ∧ p.scoringPlay = false ∧ playTeamId p ≠ "") :
    scStep hid aid s p
      = (if s.chance = some SCTeam.home ∧ playTeamId p ≠ hid then ⟨s.home2ch, s.away2ch, none⟩
         else if s.chance = some SCTeam.away ∧ playTeamId p ≠ aid then ⟨s.home2ch, s.away2ch, none⟩
         else s) := by
  simp only [scStep]
  rw [if_neg h1, if_neg h2, if_pos h3]

theorem scStep_eq_other (hid aid : String) (s : SCState) (p : Play)
    (h1 : ¬(strContains p.typeText "Offensive Rebound" = true ∧ playTeamId p ≠ ""))
    (h2 : ¬(p.scoringPlay = true ∧ p.scoreValue ≠ 0 ∧ p.scoreValue > 0 ∧ playTeamId p ≠ ""))
    (h3 : ¬(p.scoreValue ≠ 0 ∧ p.scoringPlay = false ∧ playTeamId p ≠ "")) :
    scStep hid aid s p
      = (if clearKeywords p.typeText = true then ⟨s.home2ch, s.away2ch, none⟩ else s) := by
  simp only [scStep]
  rw [if_neg h1, if_neg h2, if_neg h3]

theorem scStep_totals (hid aid : String) (s : SCState) (p : Play) :
    ((scStep hid aid s p).home2ch = s.home2ch ∧ (scStep hid aid s p).away2ch = s.away2ch) ∨
    ((scStep hid aid s p).home2ch = s.home2ch + p.scoreValue ∧
      (scStep hid aid s p).away2ch = s.away2ch ∧
      p.scoringPlay = true ∧ 0 < p.scoreValue ∧ playTeamId p = hid) ∨
    ((scStep hid aid s p).home2ch = s.home2ch ∧
      (scStep hid aid s p).away2ch = s.away2ch + p.scoreValue ∧
      p.scoringPlay = true ∧ 0 < p.scoreValue ∧ playTeamId p = aid) := by
  by_cases h1 : strContains p.typeText "Offensive Rebound" = true ∧ playTeamId p ≠ ""
  · rw [scStep_eq_rebound hid aid s p h1]
    left
    split_ifs <;> exact ⟨rfl, rfl⟩
  · by_cases h2 : p.scoringPlay = true ∧ p.scoreValue ≠ 0 ∧ p.scoreValue > 0 ∧ playTeamId p ≠ ""
    · rw [scStep_eq_scoring hid aid s p h1 h2]
      by_cases i1 : s.chance = some SCTeam.home ∧ playTeamId p = hid
      · right; left
        simp only [if_pos i1]
        split_ifs <;> exact ⟨rfl, rfl, h2.1, h2.2.2.1, i1.2⟩
      · by_cases i2 : s.chance = some SCTeam.away ∧ playTeamId p = aid
        · right; right
          simp only [if_neg i1, if_pos i2]
          split_ifs <;> exact ⟨rfl, rfl, h2.1, h2.2.2.1, i2.2⟩
        · left
          simp only [if_neg i1, if_neg i2]
          split_ifs <;> exact ⟨rfl, rfl⟩
    · by_cases h3 : p.scoreValue ≠ 0 ∧ p.scoringPlay = false ∧ playTeamId p ≠ ""
      · rw [scStep_eq_missed hid aid s p h1 h2 h3]
        left
        split_ifs <;> exact ⟨rfl, rfl⟩
      · rw [scStep_eq_other hid aid s p h1 h2 h3]
        left
        split_ifs <;> exact ⟨rfl, rfl⟩

theorem wellFormed_cons (hid aid : String) (ph pa : Int) (p : Play) (rest : List Play) :
    wellFormed hid aid ph pa (p :: rest)
      = (decide (ph ≤ p.homeScore.getD ph) && decide (pa ≤ p.awayScore.getD pa) &&
        (if p.scoringPlay = true ∧ 0 < p.scoreValue ∧ playTeamId p = hid then
          decide (p.homeScore.getD ph = ph + p.scoreValue) else true) &&
        (if p.scoringPlay = true ∧ 0 < p.scoreValue ∧ playTeamId p = aid then
          decide (p.awayScore.getD pa = pa + p.scoreValue) else true) &&
        wellFormed hid aid (p.homeScore.getD ph) (p.awayScore.getD pa) rest) := rfl

theorem scFold_le (hid aid : String) (plays : List Play) :
    ∀ (ph pa : Int) (s : SCState), wellFormed hid aid ph pa plays = true →
      s.home2ch ≤ ph → s.away2ch ≤ pa →
      (plays.foldl (scStep hid aid) s).home2ch ≤ (runScores ph pa plays).1 ∧
      (plays.foldl (scStep hid aid) s).away2ch ≤ (runScores ph pa plays).2 := by
  induction plays with
  | nil =>
    intro ph pa s _ hh ha
    exact ⟨hh, ha⟩
  | cons p rest ih =>
    intro ph pa s hwf hh ha
    rw [wellFormed_cons] at hwf
    simp only [Bool.and_eq_true, decide_eq_true_eq] at hwf
    obtain ⟨⟨⟨⟨hm1, hm2⟩, hs1⟩, hs2⟩, hrest⟩ := hwf
    simp only [List.foldl_cons, runScores]
    have hstep : (scStep hid aid s p).home2ch ≤ p.homeScore.getD ph ∧
        (scStep hid aid s p).away2ch ≤ p.awayScore.getD pa := by
      rcases scStep_totals hid aid s p with ⟨e1, e2⟩ | ⟨e1, e2, hsc, hsv, hteam⟩ | ⟨e1, e2, hsc, hsv, hteam⟩
      · rw [e1, e2]
        exact ⟨le_trans hh hm1, le_trans ha hm2⟩
      · rw [e1, e2]
        have hinc : p.homeScore.getD ph = ph + p.scoreValue := by
          have h0 := hs1
          rw [if_pos ⟨hsc, hsv, hteam⟩] at h0
          exact of_decide_eq_true h0
        constructor
        · rw [hinc]
          exact add_le_add_right hh _
        · exact le_trans ha hm2
      · rw [e1, e2]
        have hinc : p.awayScore.getD pa = pa + p.scoreValue := by
          have h0 := hs2
          rw [if_pos ⟨hsc, hsv, hteam⟩] at h0
          exact of_decide_eq_true h0
        constructor
        · exact le_trans hh hm1
        · rw [hinc]
          exact add_le_add_right ha _
    exact ih (p.homeScore.getD ph) (p.awayScore.getD pa) (scStep hid aid s p)
      hrest hstep.1 hstep.2

/-! ## Densify-loop lemmas -/

theorem fillAux_spec (c : Int) (la : List (Int × Int)) (n : Nat) :
    (List.range n).foldl (fillStep c la) (0, [])
      = (lastRecorded la n,
         (List.range n).map (fun (col : Nat) =>
           if col % 13 = 0 ∨ (col : Int) > c then none
           else some (lastRecorded la (col + 1)))) := by
  induction n with
  | zero => rfl
  | succ n ih =>
    rw [List.range_succ, List.foldl_append, List.map_append, ih]
    simp only [List.foldl_cons, List.foldl_nil, List.map_cons, List.map_nil]
    have hlr : lastRecorded la (n + 1) = (icLookup ((n : Int)) la).getD (lastRecorded la n) := rfl
    simp only [fillStep]
    cases hic : icLookup ((n : Int)) la with
    | none =>
      rw [hic] at hlr
      simp only [Option.getD_none] at hlr
      by_cases hc : n % 13 = 0 ∨ (n : Int) > c <;> simp [hc, hlr]
    | some v =>
      rw [hic] at hlr
      simp only [Option.getD_some] at hlr
      by_cases hc : n % 13 = 0 ∨ (n : Int) > c <;> simp [hc, hlr]

theorem fillLead_spec (numPeriods : Nat) (cutoff : Int) (la : List (Int × Int)) :
    fillLead numPeriods cutoff la
      = (List.range (numPeriods * 13 + 1)).map (fun (col : Nat) =>
          if col % 13 = 0 ∨ (col : Int) > cutoff then none
          else some (lastRecorded la (col + 1))) := by
  unfold fillLead
  rw [fillAux_spec]

/-! ## Truthy-id and team-sum lemmas -/

theorem truthyId_eq_some (a : Athlete) (x : String) (h : truthyId a = some x) :
    a.athleteId = some x ∧ x ≠ "" := by
  cases ha : a.athleteId with
  | none =>
    have hred : truthyId a = none := by
      unfold truthyId
      rw [ha]
    rw [hred] at h
    simp at h
  | some id =>
    have hred : truthyId a = if id = "" then none else some id := by
      unfold truthyId
      rw [ha]
    rw [hred] at h
    by_cases hi : id = ""
    · rw [if_pos hi] at h
      simp at h
    · rw [if_neg hi] at h
      have hix : id = x := by simpa using h
      subst hix
      exact ⟨rfl, hi⟩

theorem truthyId_of_athleteId (a : Athlete) (x : String) (h1 : a.athleteId = some x)
    (h2 : x ≠ "") : truthyId a = some x := by
  have hred : truthyId a = if x = "" then none else some x := by
    unfold truthyId
    rw [h1]
  rw [hred, if_neg h2]

theorem nodup_filterMap_eq {α β : Type} (f : α → Option β) (l : List α)
    (hnd : (l.filterMap f).Nodup) (a b : α) (ha : a ∈ l) (hb : b ∈ l)
    (x : β) (hfa : f a = some x) (hfb : f b = some x) : a = b := by
  induction l with
  | nil => simp at ha
  | cons c l ih =>
    rw [List.filterMap_cons] at hnd
    rw [List.mem_cons] at ha hb
    cases hfc : f c with
    | none =>
      rw [hfc] at hnd
      rcases ha with rfl | ha
      · rw [hfa] at hfc; simp at hfc
      · rcases hb with rfl | hb
        · rw [hfb] at hfc; simp at hfc
        · exact ih hnd ha hb
    | some y =>
      rw [hfc] at hnd
      have hnd2 := List.nodup_cons.mp hnd
      rcases ha with rfl | ha
      · rcases hb with rfl | hb
        · rfl
        · have hyx : y = x := by
            rw [hfa] at hfc
            simpa using hfc.symm
          exact absurd (List.mem_filterMap.mpr ⟨b, hb, hfb⟩) (hyx ▸ hnd2.1)
      · rcases hb with rfl | hb
        · have hyx : y = x := by
            rw [hfb] at hfc
            simpa using hfc.symm
          exact absurd (List.mem_filterMap.mpr ⟨a, ha, hfa⟩) (hyx ▸ hnd2.1)
        · exact ih hnd2.2 ha hb

theorem teamPMSum_cons (result : List (String × Int)) (a : Athlete) (rest : List Athlete) :
    teamPMSum result (a :: rest)
      = (match truthyId a with
         | some id => (pmLookup id result).getD 0
         | none => 0) + teamPMSum result rest := rfl

theorem teamPMSum_const (result : List (String × Int)) (mt : Int) (aths : List Athlete)
    (hval : ∀ a ∈ aths, ∀ x, truthyId a = some x →
      pmLookup x result = some (if a.starter = true then mt else 0))
    (hst : ∀ a ∈ aths, a.starter = true → (truthyId a).isSome = true) :
    teamPMSum result aths = ((aths.filter (fun a => a.starter)).length : Int) * mt := by
  induction aths with
  | nil => simp [teamPMSum]
  | cons a aths ih =>
    have htail := ih (fun b hb x hx => hval b (List.mem_cons_of_mem a hb) x hx)
      (fun b hb hbs => hst b (List.mem_cons_of_mem a hb) hbs)
    rw [List.filter_cons]
    cases hta : truthyId a with
    | none =>
      have hmr : teamPMSum result (a :: aths) = 0 + teamPMSum result aths := by
        rw [teamPMSum_cons, hta]
      have hns : ¬a.starter = true := by
        intro hs
        have := hst a (List.mem_cons_self a aths) hs
        rw [hta] at this
        simp at this
      rw [hmr, htail, if_neg (by simpa using hns)]
      ring
    | some x =>
      have hmr : teamPMSum result (a :: aths)
          = (pmLookup x result).getD 0 + teamPMSum result aths := by
        rw [teamPMSum_cons, hta]
      have hv := hval a (List.mem_cons_self a aths) x hta
      by_cases hs : a.starter = true
      · rw [hmr, hv, htail, if_pos (by simpa using hs)]
        simp only [if_pos hs, Option.getD_some, List.length_cons]
        push_cast
        ring
      · rw [hmr, hv, htail, if_neg (by simpa using hs)]
        simp only [if_neg hs, Option.getD_some]
        ring

/-! ## Per-player value in a two-team, no-substitution game -/

theorem c3_player_value (plays : List Play) (tid1 tid2 hid : String)
    (aths1 aths2 : List Athlete)
    (hns : ∀ p ∈ plays, strContains (strToLower p.typeText) "substitution" = false)
    (h12 : tid1 ≠ tid2)
    (hnd : (truthyIds aths1).Nodup)
    (hdisj : ∀ x ∈ truthyIds aths1, (some x) ∉ aths2.map (fun a => a.athleteId))
    (a : Athlete) (ha : a ∈ aths1) (x : String) (hx : truthyId a = some x) :
    pmLookup x (calculate_plus_minus plays [⟨tid1, [aths1]⟩, ⟨tid2, [aths2]⟩] hid)
      = some (if a.starter = true
              then (if tid1 = hid then 1 else -1) *
                ((runScores 0 0 plays).1 - (runScores 0 0 plays).2)
              else 0) := by
  obtain ⟨haid, hxe⟩ := truthyId_eq_some a x hx
  have hoc1 : (initTeam (⟨[], []⟩ : PMInit) ⟨tid1, [aths1]⟩).onCourt
      = [(tid1, setOfList ((aths1.filter (fun a => a.starter)).map (fun a => a.athleteId)))] := by
    rw [initTeam_oc_cons ⟨[], []⟩ ⟨tid1, [aths1]⟩ aths1 [] rfl]
    rfl
  have hocI : (([(⟨tid1, [aths1]⟩ : BoxTeam), ⟨tid2, [aths2]⟩].foldl initTeam ⟨[], []⟩)).onCourt
      = [(tid1, setOfList ((aths1.filter (fun a => a.starter)).map (fun a => a.athleteId))),
         (tid2, setOfList ((aths2.filter (fun a => a.starter)).map (fun a => a.athleteId)))] := by
    show ((initTeam (initTeam ⟨[], []⟩ ⟨tid1, [aths1]⟩) ⟨tid2, [aths2]⟩)).onCourt = _
    rw [initTeam_oc_cons _ _ aths2 [] rfl, hoc1]
    simp [ocSet, h12]
  have hxin1 : x ∈ truthyIds aths1 := List.mem_filterMap.mpr ⟨a, ha, hx⟩
  have hxbox : x ∈ boxAthleteIds [(⟨tid1, [aths1]⟩ : BoxTeam), ⟨tid2, [aths2]⟩] := by
    rw [boxAthleteIds_cons_cons ⟨tid1, [aths1]⟩ _ aths1 [] rfl]
    exact List.mem_append.mpr (Or.inl hxin1)
  have hxkeys :
      x ∈ ((([(⟨tid1, [aths1]⟩ : BoxTeam), ⟨tid2, [aths2]⟩].foldl initTeam ⟨[], []⟩)).pm).map Prod.fst := by
    rw [initFold_keys_mem]
    exact Or.inl hxbox
  have hsome := (pmLookup_isSome_iff x _).mpr hxkeys
  obtain ⟨v, hv⟩ := Option.isSome_iff_exists.mp hsome
  have hv0 := init_lookup_zero _ x v hv
  rw [hv0] at hv
  have hmain := pmFold_value_nosub hid plays
    ⟨(([(⟨tid1, [aths1]⟩ : BoxTeam), ⟨tid2, [aths2]⟩].foldl initTeam ⟨[], []⟩)).pm,
     (([(⟨tid1, [aths1]⟩ : BoxTeam), ⟨tid2, [aths2]⟩].foldl initTeam ⟨[], []⟩)).onCourt,
     0, 0⟩ x 0 hns hv
  have hS2 : (some x) ∉ setOfList ((aths2.filter (fun a => a.starter)).map (fun a => a.athleteId)) := by
    intro hmem
    rw [mem_setOfList] at hmem
    obtain ⟨b, hb, hbe⟩ := List.mem_map.mp hmem
    exact hdisj x hxin1 (List.mem_map.mpr ⟨b, List.mem_of_mem_filter hb, hbe⟩)
  have hcm : courtMult hid x
      [(tid1, setOfList ((aths1.filter (fun a => a.starter)).map (fun a => a.athleteId))),
       (tid2, setOfList ((aths2.filter (fun a => a.starter)).map (fun a => a.athleteId)))]
      = (if a.starter = true then (if tid1 = hid then 1 else -1) else 0) := by
    have e : courtMult hid x
        [(tid1, setOfList ((aths1.filter (fun a => a.starter)).map (fun a => a.athleteId))),
         (tid2, setOfList ((aths2.filter (fun a => a.starter)).map (fun a => a.athleteId)))]
        = (occCount (some x) (setOfList ((aths1.filter (fun a => a.starter)).map (fun a => a.athleteId))) : Int)
            * (if tid1 = hid then 1 else -1)
          + ((occCount (some x) (setOfList ((aths2.filter (fun a => a.starter)).map (fun a => a.athleteId))) : Int)
            * (if tid2 = hid then 1 else -1) + 0) := rfl
    rw [e, occCount_eq_zero _ _ hS2, occCount_setOfList]
    by_cases hstar : a.starter = true
    · have hmem1 : (some x) ∈ (aths1.filter (fun a => a.starter)).map (fun a => a.athleteId) :=
        List.mem_map.mpr ⟨a, List.mem_filter.mpr ⟨ha, by simpa using hstar⟩, haid⟩
      rw [if_pos hmem1, if_pos hstar]
      simp
    · have hnm : (some x) ∉ (aths1.filter (fun a => a.starter)).map (fun a => a.athleteId) := by
        intro hmem
        obtain ⟨b, hbf, hbe⟩ := List.mem_map.mp hmem
        have hbs : b.starter = true := by simpa using (List.mem_filter.mp hbf).2
        have hbin : b ∈ aths1 := List.mem_of_mem_filter hbf
        have htb : truthyId b = some x := truthyId_of_athleteId b x hbe hxe
        have hab : a = b := nodup_filterMap_eq truthyId aths1 hnd a b ha hbin x hx htb
        rw [hab] at hstar
        exact hstar hbs
      rw [if_neg hnm, if_neg hstar]
      simp
  have hgoal : (0 : Int) + courtMult hid x
        ((([(⟨tid1, [aths1]⟩ : BoxTeam), ⟨tid2, [aths2]⟩].foldl initTeam ⟨[], []⟩)).onCourt) *
        (((runScores 0 0 plays).1 - 0) - ((runScores 0 0 plays).2 - 0))
      = (if a.starter = true
         then (if tid1 = hid then 1 else -1) *
           ((runScores 0 0 plays).1 - (runScores 0 0 plays).2)
         else 0) := by
    rw [hocI, hcm]
    by_cases hstar : a.starter = true <;> simp [hstar]
  exact hmain.trans (congrArg some hgoal)

/-! ## Substitution-swap behaviour (both named players keep their values) -/

theorem setDiscard_self (x : Option String) (s : List (Option String)) :
    x ∉ setDiscard x s := by
  simp [setDiscard]

theorem mem_setDiscard (y x : Option String) (s : List (Option String)) :
    y ∈ setDiscard x s → y ∈ s := by
  intro h
  exact (List.mem_filter.mp h).1

/-- C2 (amended): when a single substitution play's free text contains
"subbing out" (and, as in the claim, also "subbing in" for a second player),
only the first participant X's "subbing out" direction is applied: X is
removed from the on-court set, the named player Y is never added, and
therefore neither X nor Y accrues any plus/minus from the following play,
whatever its score swing.  (The frozen claim said Y does accrue it.) -/
theorem c2_swap (hid T U X Y : String) (S R : List (Option String))
    (st : PMState) (vX vY : Int) (psub pscore : Play)
    (hoc : st.onCourt = [(T, S), (U, R)])
    (hXR : (some X) ∉ R)
    (hYS : (some Y) ∉ S) (hYR : (some Y) ∉ R)
    (hXid : X ≠ "")
    (hsubty : strContains (strToLower psub.typeText) "substitution" = true)
    (hsubteam : playTeamId psub = T)
    (hpart : ∃ ps, psub.participants = some X :: ps)
    (hout : strContains (strToLower psub.text) "subbing out" = true)
    (hnsh : psub.homeScore = none) (hnsa : psub.awayScore = none)
    (hscorety : strContains (strToLower pscore.typeText) "substitution" = false)
    (hvX : pmLookup X st.pm = some vX) (hvY : pmLookup Y st.pm = some vY) :
    pmLookup X ((pmStep hid (pmStep hid st psub) pscore).pm) = some vX ∧
    pmLookup Y ((pmStep hid (pmStep hid st psub) pscore).pm) = some vY := by
  obtain ⟨ps, hps⟩ := hpart
  have hlook : ocLookup (playTeamId psub) st.onCourt = some S := by
    rw [hsubteam, hoc]
    simp [ocLookup]
  have hoc1 : pmSubStep psub st.onCourt = [(T, setDiscard (some X) S), (U, R)] := by
    simp only [pmSubStep, hps, hlook, hsubty, if_true]
    rw [hoc, hsubteam]
    simp [hXid, hout, ocSet]
  have hpm1 : (pmStep hid st psub).pm = st.pm := by
    simp only [pmStep, hnsh, hnsa, Option.getD_none]
    simp
  have hoc1s : (pmStep hid st psub).onCourt = [(T, setDiscard (some X) S), (U, R)] := by
    rw [pmStep_onCourt, hoc1]
  have hsub2 : pmSubStep pscore (pmStep hid st psub).onCourt
      = [(T, setDiscard (some X) S), (U, R)] := by
    rw [pmSubStep_not_sub pscore _ hscorety, hoc1s]
  have hcmX : courtMult hid X (pmSubStep pscore (pmStep hid st psub).onCourt) = 0 := by
    rw [hsub2]
    refine courtMult_eq_zero hid X _ ?_
    intro e he
    rw [List.mem_cons, List.mem_cons] at he
    rcases he with rfl | rfl | he
    · exact setDiscard_self (some X) S
    · exact hXR
    · simp at he
  have hcmY : courtMult hid Y (pmSubStep pscore (pmStep hid st psub).onCourt) = 0 := by
    rw [hsub2]
    refine courtMult_eq_zero hid Y _ ?_
    intro e he
    rw [List.mem_cons, List.mem_cons] at he
    rcases he with rfl | rfl | he
    · exact fun hm => hYS (mem_setDiscard _ _ _ hm)
    · exact hYR
    · simp at he
  constructor
  · have hstep := pmStep_lookup hid (pmStep hid st psub) pscore X vX (by rw [hpm1]; exact hvX)
    rw [hcmX] at hstep
    simpa using hstep
  · have hstep := pmStep_lookup hid (pmStep hid st psub) pscore Y vY (by rw [hpm1]; exact hvY)
    rw [hcmY] at hstep
    simpa using hstep

/-! ## Claim theorems -/

/-- C1: for the play list [(period 1, 9:10, 2–0), (period 1, 5:00, 2–3),
(period 1, 1:00, 5–3)], all scoring, with the home side designated as "ours",
the lead/tie summarizer produces biggest-ours-lead 2, biggest-theirs-lead 1,
2 lead changes and 0 times tied. -/
theorem c1_lead_example :
    (leadSummary true c1plays).uscBiggest = 2 ∧
    (leadSummary true c1plays).oppBiggest = 1 ∧
    (leadSummary true c1plays).leadChanges = 2 ∧
    (leadSummary true c1plays).timesTied = 0 := by
  refine ⟨?_, ?_, ?_, ?_⟩ <;> rfl

/-- C2 counterexample: a single substitution play whose text contains both
"Player One subbing out" and "Player Two subbing in" (p1 the first
participant, p2 rostered but off-court) followed by a home scoring play
leaves p2 with plus/minus 0 — only the opposing on-court player q1 moves —
contradicting the claim that p2 accrues the swing. -/
theorem c2_counterexample :
    pmLookup "p2" (calculate_plus_minus c2plays c2box "H") = some 0 ∧
    pmLookup "p1" (calculate_plus_minus c2plays c2box "H") = some 0 ∧
    pmLookup "q1" (calculate_plus_minus c2plays c2box "H") = some (-2) := by
  refine ⟨?_, ?_, ?_⟩ <;> rfl

/-- Witness for the amended C2 theorem at the concrete two-play game. -/
theorem c2_swap_witness :
    pmLookup "p1" ((pmStep "H" (pmStep "H"
        ⟨[("p1", 0), ("p2", 0), ("q1", 0)],
         [("H", [some "p1"]), ("A", [some "q1"])], 0, 0⟩ c2sub) c2score).pm) = some 0 ∧
    pmLookup "p2" ((pmStep "H" (pmStep "H"
        ⟨[("p1", 0), ("p2", 0), ("q1", 0)],
         [("H", [some "p1"]), ("A", [some "q1"])], 0, 0⟩ c2sub) c2score).pm) = some 0 :=
  c2_swap "H" "H" "A" "p1" "p2" [some "p1"] [some "q1"]
    ⟨[("p1", 0), ("p2", 0), ("q1", 0)], [("H", [some "p1"]), ("A", [some "q1"])], 0, 0⟩
    0 0 c2sub c2score rfl (by decide) (by decide) (by decide) (by decide)
    (by decide) (by decide) ⟨[], rfl⟩ (by decide) rfl rfl (by decide) rfl rfl

/-- C3 counterexample: five tracked home starters, no substitutions, a single
home scoring play ending 2–0: the home roster's plus/minus sum is 10 — five
times the margin — while the claim says it equals the margin 2. -/
theorem c3_counterexample :
    teamPMSum (calculate_plus_minus c3plays c3box "H") c3homeAthletes = 10 ∧
    (runScores 0 0 c3plays).1 - (runScores 0 0 c3plays).2 = 2 := by
  refine ⟨?_, ?_⟩ <;> rfl

/-- C3 (amended): in a two-team game with no substitution plays, where the
focus team's box-score ids are truthy and duplicate-free, disjoint from the
other roster, and its on-court set is initialized to exactly 5 tracked
starters, the sum of final plus/minus over the focus team's athletes equals
5 × (that team's final score − the opponent's final score).  (The frozen
claim omitted the factor 5.) -/
theorem c3_amended (plays : List Play) (tid1 tid2 hid : String)
    (aths1 aths2 : List Athlete)
    (hns : ∀ p ∈ plays, strContains (strToLower p.typeText) "substitution" = false)
    (h12 : tid1 ≠ tid2)
    (hnd : (truthyIds aths1).Nodup)
    (hst : ∀ a ∈ aths1, a.starter = true → (truthyId a).isSome = true)
    (hcount : (aths1.filter (fun a => a.starter)).length = 5)
    (hdisj : ∀ x ∈ truthyIds aths1, (some x) ∉ aths2.map (fun a => a.athleteId)) :
    teamPMSum (calculate_plus_minus plays [⟨tid1, [aths1]⟩, ⟨tid2, [aths2]⟩] hid) aths1
      = 5 * (if tid1 = hid
             then (runScores 0 0 plays).1 - (runScores 0 0 plays).2
             else (runScores 0 0 plays).2 - (runScores 0 0 plays).1) := by
  have h := teamPMSum_const
    (calculate_plus_minus plays [⟨tid1, [aths1]⟩, ⟨tid2, [aths2]⟩] hid)
    ((if tid1 = hid then 1 else -1) * ((runScores 0 0 plays).1 - (runScores 0 0 plays).2))
    aths1
    (fun a ha x hx => c3_player_value plays tid1 tid2 hid aths1 aths2 hns h12 hnd hdisj a ha x hx)
    hst
  rw [h, hcount]
  by_cases hth : tid1 = hid <;> simp [hth]

/-- Witness for the amended C3 theorem at the concrete one-play game. -/
theorem c3_amended_witness :
    teamPMSum (calculate_plus_minus c3plays
        [⟨"H", [c3homeAthletes]⟩, ⟨"A", [c3awayAthletes]⟩] "H") c3homeAthletes
      = 5 * (if "H" = "H"
             then (runScores 0 0 c3plays).1 - (runScores 0 0 c3plays).2
             else (runScores 0 0 c3plays).2 - (runScores 0 0 c3plays).1) :=
  c3_amended c3plays "H" "A" "H" c3homeAthletes c3awayAthletes
    (by decide) (by decide) (by decide) (by decide) (by decide) (by decide)

/-- C4: the lead-change count is unchanged by inserting, at arbitrary
positions, additional scoring plays whose recorded scores are tied (zero lead
from the tracked side's perspective). -/
theorem c4_tied_insert_invariant (u : Bool) (l l2 : List Play)
    (h : TiedInsert u l l2) :
    (leadSummary u l2).leadChanges = (leadSummary u l).leadChanges := by
  unfold leadSummary
  exact (tiedInsert_leadChanges_aux u h ⟨0, 0, 0, 0, none, none⟩ ⟨0, 0, 0, 0, none, none⟩
    rfl rfl).symm

/-- Witness for C4: inserting a tied 3–3 scoring play into the lead example
leaves the lead-change count unchanged. -/
theorem c4_witness :
    (leadSummary true [c1play1, tiedPlay, c1play2, c1play3]).leadChanges
      = (leadSummary true c1plays).leadChanges :=
  c4_tied_insert_invariant true c1plays [c1play1, tiedPlay, c1play2, c1play3]
    (TiedInsert.keep c1play1
      (TiedInsert.ins tiedPlay rfl (by decide)
        (TiedInsert.keep c1play2 (TiedInsert.keep c1play3 TiedInsert.nil))))

/-- C5: for a well-formed play list (monotone cumulative scores, each scoring
play's positive `scoreValue` equal to that team's score increment), each
team's second-chance total never exceeds that team's final score. -/
theorem c5_second_chance_le_final (plays : List Play) (hid aid : String)
    (h : wellFormed hid aid 0 0 plays = true) :
    (calculate_second_chance_pts plays hid aid).1 ≤ (runScores 0 0 plays).1 ∧
    (calculate_second_chance_pts plays hid aid).2 ≤ (runScores 0 0 plays).2 :=
  scFold_le hid aid plays 0 0 ⟨0, 0, none⟩ h le_rfl le_rfl

/-- Witness for C5 on the concrete well-formed example game. -/
theorem c5_witness :
    wellFormed "H" "A" 0 0 c1plays = true ∧
    (calculate_second_chance_pts c1plays "H" "A").1 ≤ (runScores 0 0 c1plays).1 ∧
    (calculate_second_chance_pts c1plays "H" "A").2 ≤ (runScores 0 0 c1plays).2 :=
  ⟨by decide, c5_second_chance_le_final c1plays "H" "A" (by decide)⟩

/-- C6 counterexample: a scoring play with positive scoreValue attributed to
the home team whose category text is "Offensive Rebound" is not a free throw,
yet processing it does not clear the second-chance state — the rebound branch
sets the state instead. -/
theorem c6_counterexample :
    orScoringPlay.scoringPlay = true ∧ 0 < orScoringPlay.scoreValue ∧
    playTeamId orScoringPlay ≠ "" ∧
    strContains orScoringPlay.typeText "FreeThrow" = false ∧
    (scStep "H" "A" ⟨0, 0, none⟩ orScoringPlay).chance ≠ none := by
  refine ⟨rfl, by decide, by decide, rfl, by decide⟩

/-- C6 (amended): for a scoring play with positive scoreValue attributed to a
team whose category does not mark it as an offensive rebound, the
second-chance state is cleared afterward unless the category is a free
throw, regardless of which team scored and of the prior state; a made free
throw leaves the state unchanged.  (The frozen claim omitted the
offensive-rebound carve-out.) -/
theorem c6_amended (hid aid : String) (s : SCState) (p : Play)
    (h1 : p.scoringPlay = true) (h2 : 0 < p.scoreValue) (h3 : playTeamId p ≠ "")
    (h4 : strContains p.typeText "Offensive Rebound" = false) :
    (strContains p.typeText "FreeThrow" = true → (scStep hid aid s p).chance = s.chance) ∧
    (strContains p.typeText "FreeThrow" = false → (scStep hid aid s p).chance = none) := by
  have hA : ¬(strContains p.typeText "Offensive Rebound" = true ∧ playTeamId p ≠ "") := by
    intro hc
    rw [h4] at hc
    exact absurd hc.1 (by simp)
  have hB : p.scoringPlay = true ∧ p.scoreValue ≠ 0 ∧ p.scoreValue > 0 ∧ playTeamId p ≠ "" :=
    ⟨h1, by omega, h2, h3⟩
  rw [scStep_eq_scoring hid aid s p hA hB]
  constructor
  · intro hft
    simp only [hft, if_true]
    split_ifs <;> rfl
  · intro hft
    simp only [hft]
    simp

/-- Witness for the amended C6 theorem: a made jumper by the home team while
the home team held the second-chance state clears the state. -/
theorem c6_witness :
    jumperPlay.scoringPlay = true ∧ 0 < jumperPlay.scoreValue ∧
    playTeamId jumperPlay ≠ "" ∧
    strContains jumperPlay.typeText "Offensive Rebound" = false ∧
    (scStep "H" "A" ⟨0, 0, some SCTeam.home⟩ jumperPlay).chance = none :=
  ⟨rfl, by decide, by decide, by decide,
    (c6_amended "H" "A" ⟨0, 0, some SCTeam.home⟩ jumperPlay rfl (by decide) (by decide)
      (by decide)).2 (by decide)⟩

/-- C7: for a play list in which no play changes the effective cumulative
scores, `calculate_plus_minus` returns 0 for every player in the box-score
roster. -/
theorem c7_no_scoring_zero (plays : List Play) (box : List BoxTeam) (hid : String)
    (h : noScoreChange 0 0 plays = true) :
    ∀ x ∈ boxAthleteIds box, pmLookup x (calculate_plus_minus plays box hid) = some 0 := by
  intro x hx
  have hpm : calculate_plus_minus plays box hid = (box.foldl initTeam ⟨[], []⟩).pm := by
    show (plays.foldl (pmStep hid)
      ⟨(box.foldl initTeam ⟨[], []⟩).pm, (box.foldl initTeam ⟨[], []⟩).onCourt, 0, 0⟩).pm = _
    exact pmFold_pm_noChange hid plays
      ⟨(box.foldl initTeam ⟨[], []⟩).pm, (box.foldl initTeam ⟨[], []⟩).onCourt, 0, 0⟩ h
  rw [hpm]
  have hkeys : x ∈ ((box.foldl initTeam ⟨[], []⟩).pm).map Prod.fst := by
    rw [initFold_keys_mem]
    exact Or.inl hx
  have hsome := (pmLookup_isSome_iff x _).mpr hkeys
  obtain ⟨v, hv⟩ := Option.isSome_iff_exists.mp hsome
  have hv0 := init_lookup_zero box x v hv
  rw [hv, hv0]

/-- Witness for C7 on a concrete non-scoring play list. -/
theorem c7_witness :
    pmLookup "p1" (calculate_plus_minus c7plays c2box "H") = some 0 :=
  c7_no_scoring_zero c7plays c2box "H" (by decide) "p1" (by decide)

/-- C8: for a completed game with at least one scoring play, the densified
lead series has exactly `num_periods * 13 + 1` entries, every entry at a
multiple-of-13 index is the "no value" sentinel, and every other entry
carries the last recorded lead forward (the value `lastRecorded` of the
most recent column with a recorded lead, defaulting to 0). -/
theorem c8_filled_lead (u : Bool) (np : Nat) (plays : List Play)
    (hne : plays.filter (fun p => p.scoringPlay) ≠ []) :
    (filled_lead u np plays).length = np * 13 + 1 ∧
    (∀ i : Nat, i < np * 13 + 1 → i % 13 = 0 →
      (filled_lead u np plays)[i]? = some none) ∧
    (∀ i : Nat, i < np * 13 + 1 → i % 13 ≠ 0 →
      (filled_lead u np plays)[i]?
        = some (some (lastRecorded (buildLeadAtCol u plays) (i + 1)))) := by
  unfold filled_lead
  rw [fillLead_spec]
  refine ⟨by simp, ?_, ?_⟩
  · intro i hi hbrk
    rw [List.getElem?_map, List.getElem?_range hi]
    simp [hbrk]
  · intro i hi hbrk
    rw [List.getElem?_map, List.getElem?_range hi]
    have hcut : ¬((i : Int) > Int.ofNat (np * 13 + 1)) := by
      have he : (Int.ofNat (np * 13 + 1)) = ((np * 13 + 1 : Nat) : Int) := rfl
      rw [he]
      push_cast
      omega
    have hcond : ¬(i % 13 = 0 ∨ (i : Int) > Int.ofNat (np * 13 + 1)) := by
      intro hc
      rcases hc with hc | hc
      · exact hbrk hc
      · exact hcut hc
    simp only [hcond, if_false, Option.map_some']

/-- Witness for C8 on the concrete example game with one period. -/
theorem c8_witness :
    (filled_lead true 1 c1plays).length = 1 * 13 + 1 ∧
    (filled_lead true 1 c1plays)[0]? = some none ∧
    (filled_lead true 1 c1plays)[1]?
      = some (some (lastRecorded (buildLeadAtCol true c1plays) 2)) :=
  ⟨(c8_filled_lead true 1 c1plays (by decide)).1,
   (c8_filled_lead true 1 c1plays (by decide)).2.1 0 (by decide) (by decide),
   (c8_filled_lead true 1 c1plays (by decide)).2.2 1 (by decide) (by decide)⟩

/-- C9: defaulting and totality of the two calculators over inputs with
optional fields absent (both are total Lean functions by construction): an
absent home or away score is treated exactly as the carried-forward previous
score; a substitution whose team is missing from the on-court map, or with no
participants, leaves the on-court sets unchanged; and in the second-chance
calculator an absent team skips all attribution — the totals are untouched
and the state changes only by the team-independent keyword clearing rule. -/
theorem c9_defaulting (hid aid : String) (s : PMState) (sc : SCState) (p : Play) :
    (p.homeScore = none →
      pmStep hid s p = pmStep hid s (withHomeScore p (some s.prevHome))) ∧
    (p.awayScore = none →
      pmStep hid s p = pmStep hid s (withAwayScore p (some s.prevAway))) ∧
    (ocLookup (playTeamId p) s.onCourt = none → (pmStep hid s p).onCourt = s.onCourt) ∧
    (p.participants = [] → (pmStep hid s p).onCourt = s.onCourt) ∧
    (p.teamId = none →
      scStep hid aid sc p
        = ⟨sc.home2ch, sc.away2ch,
           if clearKeywords p.typeText = true then none else sc.chance⟩) := by
  refine ⟨?_, ?_, ?_, ?_, ?_⟩
  · intro h
    simp [pmStep, pmSubStep, withHomeScore, playTeamId, h]
  · intro h
    simp [pmStep, pmSubStep, withAwayScore, playTeamId, h]
  · intro h
    rw [pmStep_onCourt]
    unfold pmSubStep
    cases hp : p.participants <;> simp [h, hp]
  · intro h
    rw [pmStep_onCourt]
    unfold pmSubStep
    simp [h]
  · intro h
    have hteam : playTeamId p = "" := by
      rw [playTeamId, h]
      rfl
    have hA : ¬(strContains p.typeText "Offensive Rebound" = true ∧ playTeamId p ≠ "") :=
      fun c => c.2 hteam
    have hB : ¬(p.scoringPlay = true ∧ p.scoreValue ≠ 0 ∧ p.scoreValue > 0 ∧
        playTeamId p ≠ "") := fun c => c.2.2.2 hteam
    have hC : ¬(p.scoreValue ≠ 0 ∧ p.scoringPlay = false ∧ playTeamId p ≠ "") :=
      fun c => c.2.2 hteam
    rw [scStep_eq_other hid aid sc p hA hB hC]
    by_cases hk : clearKeywords p.typeText = true
    · rw [if_pos hk, if_pos hk]
    · rw [if_neg hk, if_neg hk]

/-- Witness for C9 with a play all of whose optional fields are absent. -/
theorem c9_witness :
    (pmStep "H" ⟨[("p1", 0)], [("H", [some "p1"])], 0, 0⟩ bareSubPlay
      = pmStep "H" ⟨[("p1", 0)], [("H", [some "p1"])], 0, 0⟩
          (withHomeScore bareSubPlay (some 0))) ∧
    (pmStep "H" ⟨[("p1", 0)], [("H", [some "p1"])], 0, 0⟩ bareSubPlay
      = pmStep "H" ⟨[("p1", 0)], [("H", [some "p1"])], 0, 0⟩
          (withAwayScore bareSubPlay (some 0))) ∧
    ((pmStep "H" ⟨[("p1", 0)], [("H", [some "p1"])], 0, 0⟩ bareSubPlay).onCourt
      = [("H", [some "p1"])]) ∧
    (scStep "H" "A" ⟨1, 2, some SCTeam.home⟩ bareSubPlay
      = ⟨1, 2, if clearKeywords bareSubPlay.typeText = true then none
               else some SCTeam.home⟩) :=
  ⟨(c9_defaulting "H" "A" ⟨[("p1", 0)], [("H", [some "p1"])], 0, 0⟩
      ⟨1, 2, some SCTeam.home⟩ bareSubPlay).1 rfl,
   (c9_defaulting "H" "A" ⟨[("p1", 0)], [("H", [some "p1"])], 0, 0⟩
      ⟨1, 2, some SCTeam.home⟩ bareSubPlay).2.1 rfl,
   (c9_defaulting "H" "A" ⟨[("p1", 0)], [("H", [some "p1"])], 0, 0⟩
      ⟨1, 2, some SCTeam.home⟩ bareSubPlay).2.2.2.1 rfl,
   (c9_defaulting "H" "A" ⟨[("p1", 0)], [("H", [some "p1"])], 0, 0⟩
      ⟨1, 2, some SCTeam.home⟩ bareSubPlay).2.2.2.2 rfl⟩

/-- C10: the key set of the plus/minus result equals exactly the box score's
non-empty athlete ids — the play loop never adds or removes keys (the key
list is the initialisation key list verbatim), and an athlete absent from the
box score can never hold a plus/minus entry, whatever substitutions name
them. -/
theorem c10_keys (plays : List Play) (box : List BoxTeam) (hid : String) :
    (calculate_plus_minus plays box hid).map Prod.fst
      = ((box.foldl initTeam ⟨[], []⟩).pm).map Prod.fst ∧
    (∀ x : String, x ∈ (calculate_plus_minus plays box hid).map Prod.fst
      ↔ x ∈ boxAthleteIds box) ∧
    (∀ x : String, x ∉ boxAthleteIds box →
      pmLookup x (calculate_plus_minus plays box hid) = none) := by
  have hk : (calculate_plus_minus plays box hid).map Prod.fst
      = ((box.foldl initTeam ⟨[], []⟩).pm).map Prod.fst := by
    show ((plays.foldl (pmStep hid)
      ⟨(box.foldl initTeam ⟨[], []⟩).pm, (box.foldl initTeam ⟨[], []⟩).onCourt, 0, 0⟩).pm).map
        Prod.fst = _
    exact pmFold_keys hid plays _
  refine ⟨hk, ?_, ?_⟩
  · intro x
    rw [hk, initFold_keys_mem]
    simp
  · intro x hx
    rw [pmLookup_none_iff, hk, initFold_keys_mem]
    simp [hx]

/-- Witness for C10: an id not in the box score has no plus/minus entry. -/
theorem c10_witness :
    pmLookup "zz" (calculate_plus_minus c2plays c2box "H") = none :=
  (c10_keys c2plays c2box "H").2.2 "zz" (by decide)
